import Mathlib

/-!
EKT block ledger: a shallow embedding of `io/ekt8/blockchain/block.go`

The development follows the Go source function by function; `Init` of
`blockchain_manager/blockchain_manager.go` is embedded the same way.

Modelling conventions.

* `int64` values are integers of `Int`; every `+`, `-` of the source is followed by
  `wrap64`, the two's-complement wrap-around of Go.
* A Go byte slice that may be `nil` is an `Option ByteSlice` (`none` is `nil`);
  `bytes.Equal` does not distinguish `nil` from the empty slice.
* A Go pointer that may be `nil` is an `Option`; dereferencing `nil` panics.
  A call that panics is an `Outcome.panicked`, carrying the block as the panic left it.
* Packages that the file imports but that are not part of the sources at hand
  (`crypto`, `MPTPlus`, `core/common`, `i_consensus`, `encoding/json`, `encoding/hex`)
  are collected in the record `Env`, one field per function, without any assumed law.
  Laws that a proof needs (for instance that an account survives encoding and
  decoding) are explicit hypotheses of the theorem.
* Locks (`Locker`, `MTP.Lock`) are not modelled: every function is executed alone.
-/

namespace EKT

/-! ## Machine integers and byte slices -/

/-- Content of a non-nil Go slice `[]byte`. -/
abbrev ByteSlice := List Nat

/-- Two's-complement wrap-around of a 64 bit signed integer. -/
def wrap64 (x : Int) : Int := (x + 2 ^ 63) % 2 ^ 64 - 2 ^ 63

/-- Membership in the range of `int64`. -/
def isInt64 (x : Int) : Prop := -(2 ^ 63) ≤ x ∧ x < 2 ^ 63

instance (x : Int) : Decidable (isInt64 x) := by
  unfold isInt64; exact inferInstance

/-- Go `bytes.Equal`: a nil slice equals an empty one. -/
def bytesEqual (a b : Option ByteSlice) : Bool := a.getD [] == b.getD []

/-! ## Types of the imported packages -/

/-- Error values that the functions of `block.go` return or pass on. -/
inductive Err where
  /-- Go `errors.New("Invalid Hash")` -/
  | invalidHash
  /-- Go `errors.New(fmt.Sprintf("Block body is wrong, want hash(body) = %s, get %s", ..))` -/
  | bodyIsWrong (want : Option ByteSlice) (got : ByteSlice)
  /-- The key is not in the tree (`MTP.GetValue`) -/
  | notFound
  /-- An error of `json.Unmarshal` -/
  | unmarshal
  /-- An error returned by a peer -/
  | peer (code : Nat)
  deriving DecidableEq, Repr

/-- Modelled from the spec: `common.Account`, declared outside the sources at hand.
The spec gives `{address: bytes, publicKey: bytes, balance: int64, ...}`; the methods used
by `block.go` are `Address`, `GetAmount`, `AddAmount`, `ReduceAmount`, `ToBytes`. -/
structure Account where
  address : ByteSlice
  publicKey : ByteSlice
  amount : Int
  deriving DecidableEq, Repr

/-- Modelled from the spec: `common.NewAccount` "materializes a zero-balance entry". -/
def NewAccount (address pubKey : ByteSlice) : Account :=
  { address := address, publicKey := pubKey, amount := 0 }

/-- Modelled from the spec: `Account.Address`. -/
def Account.Address (a : Account) : ByteSlice := a.address

/-- Modelled from the spec: `Account.GetAmount`, the balance of the entry. -/
def Account.GetAmount (a : Account) : Int := a.amount

/-- Modelled from the spec: `Account.AddAmount`, "receiver balance increases by amount"
(an `int64` addition). -/
def Account.AddAmount (a : Account) (x : Int) : Account :=
  { a with amount := wrap64 (a.amount + x) }

/-- Modelled from the spec: `Account.ReduceAmount`, "sender balance decreases by"
the argument (an `int64` subtraction). -/
def Account.ReduceAmount (a : Account) (x : Int) : Account :=
  { a with amount := wrap64 (a.amount - x) }

/-- Modelled from the spec: `common.Transaction`, `{from, to, amount}`; `From` and `To`
are hexadecimal strings in the source (`hex.DecodeString(tx.From)`). The field `tag`
stands for the remaining content, which only `TransactionId` reads. -/
structure Transaction where
  From : String
  To : String
  Amount : Int
  tag : Nat
  deriving DecidableEq, Repr

/-- Modelled from the spec: `common.TxResult`,
`{transaction, fee charged, success: bool, reason: string}`. -/
structure TxResult where
  tx : Transaction
  fee : Int
  success : Bool
  reason : String
  deriving DecidableEq, Repr

/-- Modelled from the spec: `common.NewTransactionResult(tx, fee, success, reason)`. -/
def NewTransactionResult (tx : Transaction) (fee : Int) (success : Bool) (reason : String) :
    TxResult :=
  { tx := tx, fee := fee, success := success, reason := reason }

/-- Modelled from the spec: `MPTPlus.MTP`, the commitment tree ("insert, get, contains-key,
and root-digest retrieval"). `entries` is the content, most recent binding first;
`Root` is the field read by `UpdateMPTPlusRoot`. -/
structure MTP where
  Root : Option ByteSlice
  entries : List (ByteSlice × ByteSlice)
  deriving DecidableEq, Repr

/-- Modelled from the spec: `MTP.GetValue`, `Get(key) → value|NotFound`. -/
def MTP.GetValue (t : MTP) (key : ByteSlice) : Except Err ByteSlice :=
  match t.entries.lookup key with
  | some v => .ok v
  | none => .error Err.notFound

/-- Modelled from the spec: `MTP.ContainsKey`, `ContainsKey(key) → bool`. -/
def MTP.ContainsKey (t : MTP) (key : ByteSlice) : Bool :=
  (t.entries.lookup key).isSome

/-- Modelled from the spec: a peer of a round, known by an identifier. -/
structure Peer where
  id : Nat
  deriving DecidableEq, Repr

/-- Modelled from the spec: `i_consensus.Round`,
`{peers: ordered sequence of Peer, currentIndex: int}`. -/
structure Round where
  Peers : List Peer
  CurrentIndex : Int
  deriving DecidableEq, Repr

/-- Modelled from the spec: `BlockBody`, declared in the package outside the sources at
hand; the spec calls it the block's "full body". Its content is uninterpreted. -/
structure BlockBody where
  Height : Int
  content : ByteSlice
  deriving DecidableEq, Repr

/-! ## The block -/

/-- The struct `Block`. `Locker` is left out. -/
structure Block where
  Height : Int
  Timestamp : Int
  Nonce : Int
  Fee : Int
  TotalFee : Int
  PreviousHash : Option ByteSlice
  CurrentHash : Option ByteSlice
  BlockBody : Option BlockBody
  Body : Option ByteSlice
  Round : Option Round
  StatTree : Option MTP
  StatRoot : Option ByteSlice
  TxTree : Option MTP
  TxRoot : Option ByteSlice
  EventTree : Option MTP
  EventRoot : Option ByteSlice
  TokenTree : Option MTP
  TokenRoot : Option ByteSlice
  deriving DecidableEq, Repr

/-- The fields of `Block` that `json.Marshal` writes: all but those tagged `json:"-"`
(`BlockBody`, `Locker` and the four tree handles). -/
structure Header where
  height : Int
  timestamp : Int
  nonce : Int
  fee : Int
  totalFee : Int
  previousHash : Option ByteSlice
  currentHash : Option ByteSlice
  body : Option ByteSlice
  round : Option Round
  statRoot : Option ByteSlice
  txRoot : Option ByteSlice
  eventRoot : Option ByteSlice
  tokenRoot : Option ByteSlice
  deriving DecidableEq, Repr

/-- The serialized view of a block. -/
def Block.header (b : Block) : Header :=
  { height := b.Height, timestamp := b.Timestamp, nonce := b.Nonce, fee := b.Fee,
    totalFee := b.TotalFee, previousHash := b.PreviousHash, currentHash := b.CurrentHash,
    body := b.Body, round := b.Round, statRoot := b.StatRoot, txRoot := b.TxRoot,
    eventRoot := b.EventRoot, tokenRoot := b.TokenRoot }

/-- The functions of imported packages, as parameters. -/
structure Env where
  /-- Go `crypto.Sha3_256` -/
  Sha3_256 : ByteSlice → ByteSlice
  /-- Go `json.Marshal(block)` -/
  marshalBlock : Header → ByteSlice
  /-- Go `json.Marshal(account)` -/
  marshalAccount : Account → ByteSlice
  /-- Go `json.Unmarshal(value, &account)`; `none` is an error -/
  unmarshalAccount : ByteSlice → Option Account
  /-- Go `Account.ToBytes` -/
  accountToBytes : Account → ByteSlice
  /-- Go `hex.DecodeString`, the error dropped -/
  hexDecode : String → ByteSlice
  /-- Go `Transaction.TransactionId` -/
  TransactionId : Transaction → String
  /-- Go `TxResult.ToBytes` -/
  txResultToBytes : TxResult → ByteSlice
  /-- The root digest of a tree with the given content -/
  mtpRoot : List (ByteSlice × ByteSlice) → ByteSlice
  /-- The root of the tree made by `MPTPlus.NewMTP` -/
  emptyRoot : Option ByteSlice
  /-- Go `Round.NextRound` -/
  NextRound : Option Round → Option ByteSlice → Option Round
  /-- Go `NewBlockBody` -/
  NewBlockBody : Int → Option BlockBody
  /-- Go `BlockBody.Bytes` -/
  bodyBytes : BlockBody → ByteSlice
  /-- Go `json.Unmarshal(bodyData, block.BlockBody)`: the body afterwards and the error -/
  unmarshalBody : ByteSlice → BlockBody → BlockBody × Option Err
  /-- Go `Peer.GetDBValue` -/
  GetDBValue : Peer → Option ByteSlice → Except Err ByteSlice
  /-- Go `MPTPlus.MTP_Tree(db.GetDBInst(), root)`: the tree reopened at a root -/
  MTP_Tree : Option ByteSlice → MTP

/-- Modelled from the spec: `MTP.MustInsert`, `Insert(key, value)` of the commitment
store; the root follows the content. -/
def MTP.MustInsert (env : Env) (t : MTP) (key value : ByteSlice) : MTP :=
  { Root := some (env.mtpRoot ((key, value) :: t.entries)),
    entries := (key, value) :: t.entries }

/-- Modelled from the spec: `MPTPlus.NewMTP`, a fresh tree without entries. -/
def NewMTP (env : Env) : MTP := { Root := env.emptyRoot, entries := [] }

/-- What a call leaves behind: it returns, or it panics (nil dereference, index out of
range). Either way `block` is the receiver as the call left it. -/
inductive Outcome (α : Type) where
  | returned (block : Block) (value : α)
  | panicked (block : Block)
  deriving DecidableEq, Repr

/-- The block a call leaves behind. -/
def Outcome.block {α : Type} : Outcome α → Block
  | .returned b _ => b
  | .panicked b => b

/-! ## The functions of `block.go` -/

/-- First step of `UpdateMPTPlusRoot`: `if block.StatTree != nil` copy its root. -/
def refreshStat (block : Block) : Block :=
  match block.StatTree with
  | some t => { block with StatRoot := t.Root }
  | none => block

/-- Second step of `UpdateMPTPlusRoot`: `if block.TxTree != nil` copy its root. -/
def refreshTx (block : Block) : Block :=
  match block.TxTree with
  | some t => { block with TxRoot := t.Root }
  | none => block

/-- Third step of `UpdateMPTPlusRoot`: `if block.EventTree != nil` copy its root. -/
def refreshEvent (block : Block) : Block :=
  match block.EventTree with
  | some t => { block with EventRoot := t.Root }
  | none => block

/-- Fourth step of `UpdateMPTPlusRoot`: `if block.TokenTree != nil` copy its root. -/
def refreshToken (block : Block) : Block :=
  match block.TokenTree with
  | some t => { block with TokenRoot := t.Root }
  | none => block

/-- Go `Block.UpdateMPTPlusRoot`: the four steps in the order of the source. The read
locks that the source takes on the trees (and does not release) are not modelled. -/
def UpdateMPTPlusRoot (block : Block) : Block :=
  refreshToken (refreshEvent (refreshTx (refreshStat block)))

/-- Go `Block.Bytes`: refresh the roots, then `json.Marshal(block)`. The receiver is a
pointer, so the refreshed block is part of the result. -/
def Block.Bytes (env : Env) (block : Block) : Block × ByteSlice :=
  let block := UpdateMPTPlusRoot block
  (block, env.marshalBlock block.header)

/-- Go `Block.Hash`. -/
def Block.Hash (block : Block) : Option ByteSlice := block.CurrentHash

/-- Go `Block.CaculateHash`: `block.CurrentHash = crypto.Sha3_256(block.Bytes())`. The
encoding is taken before the assignment, with the previous `CurrentHash` in it. -/
def CaculateHash (env : Env) (block : Block) : Block × ByteSlice :=
  let r := Block.Bytes env block
  let digest := env.Sha3_256 r.2
  ({ r.1 with CurrentHash := some digest }, digest)

/-- Go `Block.NewNonce`. -/
def NewNonce (block : Block) : Block := { block with Nonce := wrap64 (block.Nonce + 1) }

/-- Go `Block.Validate`. The receiver is a value: the call works on a copy of the block
and returns only the error (`none` is `nil`). In
`bytes.Equal(block.CurrentHash, block.CaculateHash())` the second operand is a call that
assigns the field which the first operand reads. Go orders calls among themselves only
(language specification, Order of evaluation), and the compiled program makes the call
first and reads `block.CurrentHash` afterwards: the field read is the one that
`CaculateHash` has just assigned. -/
def Validate (env : Env) (block : Block) : Option Err :=
  let r := CaculateHash env block
  if !bytesEqual r.1.CurrentHash (some r.2) then some Err.invalidHash else none

/-- Go `round.Peers[round.CurrentIndex]`; `none` is an index out of range. -/
def Round.leader (round : Round) : Option Peer :=
  if 0 ≤ round.CurrentIndex then round.Peers.get? round.CurrentIndex.toNat else none

/-- Go `Block.Recover`. The receiver is a value, but `BlockBody` is a pointer:
`json.Unmarshal` writes into the body that the caller's block points to. A nil `BlockBody`
or `Round` is taken to fault at its first use. -/
def Recover (env : Env) (block : Block) : Outcome (Option Err) :=
  match block.BlockBody with
  | none => .panicked block
  | some blockBody =>
    if !bytesEqual block.Body (some (env.bodyBytes blockBody)) then
      match block.Round with
      | none => .panicked block
      | some round =>
        match round.leader with
        | none => .panicked block
        | some peer =>
          match env.GetDBValue peer block.Body with
          | .error err => .returned block (some err)
          | .ok bodyData =>
            let r := env.unmarshalBody bodyData blockBody
            let block := { block with BlockBody := some r.1 }
            match r.2 with
            | some err => .returned block (some err)
            | none =>
              if !bytesEqual (some (env.Sha3_256 (env.bodyBytes r.1))) block.Body then
                .returned block
                  (some (Err.bodyIsWrong block.Body (env.Sha3_256 (env.bodyBytes r.1))))
              else .returned block none
    else .returned block none

/-- Go `Block.GetAccount`. The outer `none` is the fault of a nil `StatTree`; otherwise
the pair `(*Account, error)` of the source is `.ok account` or `.error err`. -/
def GetAccount (env : Env) (block : Block) (address : ByteSlice) : Option (Except Err Account) :=
  match block.StatTree with
  | none => none
  | some statTree =>
    match statTree.GetValue address with
    | .error err => some (.error err)
    | .ok value =>
      match env.unmarshalAccount value with
      | none => some (.error Err.unmarshal)
      | some account => some (.ok account)

/-- Go `Block.ExistAddress`; `none` is the fault of a nil `StatTree`. -/
def ExistAddress (block : Block) (address : ByteSlice) : Option Bool :=
  match block.StatTree with
  | none => none
  | some statTree => some (statTree.ContainsKey address)

/-- Go `Block.newAccount`. -/
def newAccount (env : Env) (block : Block) (address pubKey : ByteSlice) : Outcome Unit :=
  let account := NewAccount address pubKey
  let value := env.marshalAccount account
  match block.StatTree with
  | none => .panicked block
  | some statTree =>
    .returned
      (UpdateMPTPlusRoot { block with StatTree := some (statTree.MustInsert env address value) })
      ()

/-- Go `Block.CreateAccount`. -/
def CreateAccount (env : Env) (block : Block) (address pubKey : ByteSlice) : Outcome Unit :=
  match ExistAddress block address with
  | none => .panicked block
  | some true => .returned block ()
  | some false => newAccount env block address pubKey

/-- Go `Block.InsertAccount`. -/
def InsertAccount (env : Env) (block : Block) (account : Account) : Outcome Bool :=
  match ExistAddress block account.Address with
  | none => .panicked block
  | some true => .returned block false
  | some false =>
    let value := env.marshalAccount account
    match block.StatTree with
    | none => .panicked block
    | some statTree =>
      .returned
        (UpdateMPTPlusRoot
          { block with StatTree := some (statTree.MustInsert env account.Address value) })
        true

/-- The tail of `Block.NewTransaction` shared by both branches: record the result in the
transaction tree, refresh the roots, return. A nil `TxTree` faults at `MustInsert`. -/
def recordResult (env : Env) (block : Block) (tx : Transaction) (txResult : TxResult) :
    Outcome TxResult :=
  let txId := env.hexDecode (env.TransactionId tx)
  match block.TxTree with
  | none => .panicked block
  | some txTree =>
    .returned
      (UpdateMPTPlusRoot
        { block with TxTree := some (txTree.MustInsert env txId (env.txResultToBytes txResult)) })
      txResult

/-- Go `Block.NewTransaction`. The errors of both `GetAccount` calls are dropped, so a
missing account is a nil pointer: the sender faults at `account.GetAmount()`, the receiver
at `recieverAccount.AddAmount`, after `block.TotalFee` has been assigned. -/
def NewTransaction (env : Env) (block : Block) (tx : Transaction) (fee : Int) :
    Outcome TxResult :=
  let fromAddress := env.hexDecode tx.From
  let toAddress := env.hexDecode tx.To
  match GetAccount env block fromAddress, GetAccount env block toAddress with
  | none, _ => .panicked block
  | _, none => .panicked block
  | some r1, some r2 =>
    match r1.toOption with
    | none => .panicked block
    | some account =>
      if account.GetAmount < wrap64 (tx.Amount + fee) then
        recordResult env block tx (NewTransactionResult tx fee false "no enough amount")
      else
        let txResult := NewTransactionResult tx fee true ""
        let account := account.ReduceAmount (wrap64 (tx.Amount + block.Fee))
        let block := { block with TotalFee := wrap64 (block.TotalFee + block.Fee) }
        match r2.toOption with
        | none => .panicked block
        | some recieverAccount =>
          let recieverAccount := recieverAccount.AddAmount tx.Amount
          match block.StatTree with
          | none => .panicked block
          | some statTree =>
            let statTree := statTree.MustInsert env fromAddress (env.accountToBytes account)
            let statTree :=
              statTree.MustInsert env toAddress (env.accountToBytes recieverAccount)
            recordResult env { block with StatTree := some statTree } tx txResult

/-- Go `NewBlock`. The two readings of the clock, `time.Now().Second()` and
`time.Now().Nanosecond()`, are the arguments `second` and `nanosecond`. The four root
fields are not named in the literal and keep their zero value, nil. -/
def NewBlock (env : Env) (second nanosecond : Int) (last : Block) : Block :=
  { Height := wrap64 (last.Height + 1)
    Nonce := 0
    Fee := last.Fee
    TotalFee := 0
    PreviousHash := last.Hash
    Timestamp := wrap64 (wrap64 (second * 1000) + nanosecond)
    CurrentHash := none
    BlockBody := env.NewBlockBody (wrap64 (last.Height + 1))
    Body := none
    Round := env.NextRound last.Round last.Hash
    StatTree := last.StatTree
    TxTree := some (NewMTP env)
    EventTree := some (NewMTP env)
    TokenTree := last.TokenTree
    StatRoot := none
    TxRoot := none
    EventRoot := none
    TokenRoot := none }

/-- Go `Block.ValidateNextBlock`: the body is `//TODO` and `return true`. -/
def ValidateNextBlock (_block _next : Block) : Bool := true

/-! ## Sequences of calls -/

/-- The mutating calls on a block. -/
inductive Op where
  | createAccount (address pubKey : ByteSlice)
  | insertAccount (account : Account)
  | newTransaction (tx : Transaction) (fee : Int)
  deriving DecidableEq, Repr

/-- The block that one call leaves behind. -/
def step (env : Env) (block : Block) : Op → Block
  | .createAccount address pubKey => (CreateAccount env block address pubKey).block
  | .insertAccount account => (InsertAccount env block account).block
  | .newTransaction tx fee => (NewTransaction env block tx fee).block

/-- The block that a sequence of calls leaves behind. -/
def run (env : Env) (block : Block) : List Op → Block
  | [] => block
  | op :: ops => run env (step env block op) ops

/-- The balance that `GetAccount` reads at an address, when there is a readable entry. -/
def balanceOf (env : Env) (block : Block) (address : ByteSlice) : Option Int :=
  match GetAccount env block address with
  | some (.ok account) => some account.GetAmount
  | _ => none

/-! ## A reference environment

Small executable stand-ins for the imported functions, used to run the model on concrete
blocks. No theorem about all environments depends on them. -/

/-- Sign and magnitude of an integer. -/
def encInt (x : Int) : ByteSlice := [if x < 0 then 1 else 0, x.natAbs]

/-- A nil-able slice, with a tag and its length in front. -/
def encSlice : Option ByteSlice → ByteSlice
  | none => [0]
  | some bs => 1 :: bs.length :: bs

/-- A round, with a tag in front. -/
def encRound : Option Round → ByteSlice
  | none => [0]
  | some r => 1 :: r.Peers.length :: (r.Peers.map (fun p => p.id) ++ encInt r.CurrentIndex)

/-- Stand-in of `json.Marshal(block)`: all serialized fields, in the order of the struct. -/
def refMarshalBlock (h : Header) : ByteSlice :=
  encInt h.height ++ encInt h.timestamp ++ encInt h.nonce ++ encInt h.fee ++
    encInt h.totalFee ++ encSlice h.previousHash ++ encSlice h.currentHash ++
    encSlice h.body ++ encRound h.round ++ encSlice h.statRoot ++ encSlice h.txRoot ++
    encSlice h.eventRoot ++ encSlice h.tokenRoot

/-- Stand-in of the encoding of an account. -/
def refMarshalAccount (a : Account) : ByteSlice :=
  (if a.amount < 0 then 1 else 0) :: a.amount.natAbs :: a.address.length ::
    (a.address ++ a.publicKey)

/-- Stand-in of the decoding of an account. -/
def refUnmarshalAccount : ByteSlice → Option Account
  | s :: m :: n :: rest =>
    some { address := rest.take n, publicKey := rest.drop n,
           amount := if s = 1 then -(m : Int) else (m : Int) }
  | _ => none

/-- Value of a hexadecimal digit. -/
def hexDigit (c : Char) : Option Nat :=
  let n := c.toNat
  if 48 ≤ n ∧ n ≤ 57 then some (n - 48)
  else if 97 ≤ n ∧ n ≤ 102 then some (n - 87)
  else if 65 ≤ n ∧ n ≤ 70 then some (n - 55)
  else none

/-- Pairs of hexadecimal digits to bytes, up to the first character that is not one. -/
def hexPairs : List Char → ByteSlice
  | a :: b :: rest =>
    match hexDigit a, hexDigit b with
    | some x, some y => (16 * x + y) :: hexPairs rest
    | _, _ => []
  | _ => []

/-- Stand-in of `json.Unmarshal` into a block body. -/
def refUnmarshalBody (data : ByteSlice) (body : BlockBody) : BlockBody × Option Err :=
  match data with
  | s :: m :: rest =>
    ({ Height := if s = 1 then -(m : Int) else (m : Int), content := rest }, none)
  | _ => (body, some Err.unmarshal)

/-- Stand-in of a peer: peer 0 is unreachable, peer 1 answers with the bytes whose
reference digest was asked for, every other peer answers with a body of its own. -/
def refGetDBValue (peer : Peer) (digest : Option ByteSlice) : Except Err ByteSlice :=
  if peer.id = 0 then .error (Err.peer 0)
  else if peer.id = 1 then .ok ((digest.getD []).tail)
  else .ok [0, peer.id]

/-- The reference environment. The digest stand-in puts the length in front of its input. -/
def refEnv : Env :=
  { Sha3_256 := fun bs => bs.length :: bs
    marshalBlock := refMarshalBlock
    marshalAccount := refMarshalAccount
    unmarshalAccount := refUnmarshalAccount
    accountToBytes := refMarshalAccount
    hexDecode := fun s => hexPairs s.toList
    TransactionId := fun tx => tx.From ++ tx.To
    txResultToBytes := fun r => (if r.success then 1 else 0) :: encInt r.fee
    mtpRoot := fun entries => entries.length :: (entries.map (fun p => p.2.length))
    emptyRoot := none
    NextRound := fun r _ =>
      r.map (fun r => { r with CurrentIndex := (r.CurrentIndex + 1) % r.Peers.length })
    NewBlockBody := fun h => some { Height := h, content := [] }
    bodyBytes := fun b => encInt b.Height ++ b.content
    unmarshalBody := refUnmarshalBody
    GetDBValue := refGetDBValue
    MTP_Tree := fun root => { Root := root, entries := [] } }

/-- A block without trees, body and round: the zero value of `Block`, at fee `fee`. -/
def emptyBlock (fee : Int) : Block :=
  { Height := 0, Timestamp := 0, Nonce := 0, Fee := fee, TotalFee := 0,
    PreviousHash := none, CurrentHash := none, BlockBody := none, Body := none,
    Round := none, StatTree := none, StatRoot := none, TxTree := none, TxRoot := none,
    EventTree := none, EventRoot := none, TokenTree := none, TokenRoot := none }

/-- A block at fee `fee` whose state tree holds the given accounts, with an empty
transaction tree. -/
def ledgerBlock (fee : Int) (accounts : List Account) : Block :=
  { emptyBlock fee with
    StatTree := some { Root := none,
                       entries := accounts.map (fun a => (a.address, refMarshalAccount a)) }
    TxTree := some (NewMTP refEnv) }

/-! ## Predicates on ledgers -/

/-- Every account that can be read from the state tree has a balance of at least 0. -/
def nonNegative (env : Env) (block : Block) : Prop :=
  ∀ address account, GetAccount env block address = some (.ok account) →
    0 ≤ account.GetAmount

/-- Every account that can be read from the state tree has a balance of at least 0 and,
being an `int64`, below `2 ^ 63`. -/
def solvent (env : Env) (block : Block) : Prop :=
  ∀ address account, GetAccount env block address = some (.ok account) →
    0 ≤ account.GetAmount ∧ account.GetAmount < 2 ^ 63

/-- The calls under which balances stay non-negative: an inserted account has a
non-negative `int64` balance; a transfer has a non-negative amount, the fee passed by the
caller is at least the fee of the block, which is at least 0, and neither
`tx.Amount + fee` nor the receiver's new balance overflows `int64`. -/
def admissible (env : Env) (block : Block) : Op → Prop
  | .createAccount _ _ => True
  | .insertAccount account => 0 ≤ account.GetAmount ∧ account.GetAmount < 2 ^ 63
  | .newTransaction tx fee =>
    0 ≤ tx.Amount ∧ 0 ≤ block.Fee ∧ block.Fee ≤ fee ∧ tx.Amount + fee < 2 ^ 63 ∧
      ∀ balance, balanceOf env block (env.hexDecode tx.To) = some balance →
        balance + tx.Amount < 2 ^ 63

/-- Every call of the sequence is admissible in the block it is applied to. -/
def admissibleRun (env : Env) (block : Block) : List Op → Prop
  | [] => True
  | op :: ops => admissible env block op ∧ admissibleRun env (step env block op) ops

/-- Two accounts, `0a` holding 5 and `0b` holding 0; the block fee is 10. -/
def overdraftBlock : Block := ledgerBlock 10 [⟨[10], [], 5⟩, ⟨[11], [], 0⟩]

/-- A transfer of 5 from `0a` to `0b`. -/
def overdraftTx : Transaction := { From := "0a", To := "0b", Amount := 5, tag := 0 }

/-- One account, at address `0a`, holding 1000; the block fee is 2. -/
def selfTransferBlock : Block := ledgerBlock 2 [⟨[10], [], 1000⟩]

/-- A transfer of 100 from address `0a` to address `0a`. -/
def selfTransferTx : Transaction := { From := "0a", To := "0a", Amount := 100, tag := 0 }

/-- Two accounts, `0a` holding 50 and `0b` holding 0; the block fee is 2. -/
def witnessLedger : Block := ledgerBlock 2 [⟨[10], [], 50⟩, ⟨[11], [], 0⟩]

/-- Create `0c`, insert `0d` holding 7, transfer 40 from `0a` to `0b` with fee 3. -/
def witnessOps : List Op :=
  [Op.createAccount [12] [], Op.insertAccount ⟨[13], [], 7⟩,
    Op.newTransaction { From := "0a", To := "0b", Amount := 40, tag := 0 } 3]

/-- A block whose stored hash, `010203`, is not the digest of its encoding. -/
def tamperedBlock : Block := { selfTransferBlock with CurrentHash := some [1, 2, 3] }

/-- A block whose claimed body digest `Body` is the encoding of its local body itself,
not the digest of that encoding. -/
def unverifiedBlock : Block :=
  { emptyBlock 0 with
    BlockBody := some { Height := 3, content := [7] }
    Body := some (refEnv.bodyBytes { Height := 3, content := [7] }) }

/-- A block that claims the body digest `0909`, has an empty local body, and whose round
leader is peer 2. -/
def fetchingBlock : Block :=
  { emptyBlock 0 with
    BlockBody := some { Height := 0, content := [] }
    Body := some [9, 9]
    Round := some { Peers := [⟨2⟩], CurrentIndex := 0 } }

/-- A block at height 4 with hash `02`. -/
def tipBlock : Block := { emptyBlock 0 with Height := 4, CurrentHash := some [2] }

/-- A block at height 9 that names `01` as the hash of its predecessor. -/
def strayBlock : Block := { emptyBlock 0 with Height := 9, PreviousHash := some [1] }

/-- The four root fields of a block. -/
inductive RootKind where
  | stat
  | tx
  | event
  | token
  deriving DecidableEq, Repr

/-- One step of `UpdateMPTPlusRoot`, by the root it refreshes. -/
def refreshOne : RootKind → Block → Block
  | .stat => refreshStat
  | .tx => refreshTx
  | .event => refreshEvent
  | .token => refreshToken

/-- The steps of `UpdateMPTPlusRoot` taken in the given order. -/
def refreshIn (order : List RootKind) (block : Block) : Block :=
  order.foldl (fun b k => refreshOne k b) block

/-! ## Reading a block back -/

/-- Go `json.Unmarshal(data, v)` for an argument `v` that is not a pointer. The package
documents "If v is nil or not a pointer, Unmarshal returns an InvalidUnmarshalError"
(and a syntax error when `data` is not JSON at all): the error is never nil, and the
argument, passed by value, is not written. -/
def unmarshalByValue (_data : ByteSlice) : Err := Err.unmarshal

/-- The three assignments of `FromBytes2Block` after decoding: the event, state and
transaction trees are opened at the roots of the block. `TokenTree` is not assigned. -/
def reattach (env : Env) (block : Block) : Block :=
  let block := { block with EventTree := some (env.MTP_Tree block.EventRoot) }
  let block := { block with StatTree := some (env.MTP_Tree block.StatRoot) }
  { block with TxTree := some (env.MTP_Tree block.TxRoot) }

/-- Go `FromBytes2Block`. The source declares `var block Block` and calls
`json.Unmarshal(data, block)`: the target is the struct itself, not a pointer to it. -/
def FromBytes2Block (env : Env) (data : ByteSlice) : Except Err Block :=
  let block := emptyBlock 0
  let err : Option Err := some (unmarshalByValue data)
  match err with
  | some e => .error e
  | none => .ok (reattach env block)

/-! ## Views of a block -/

/-- What a tree handle holds at a key; `none` when the handle is nil. -/
def treeGet (tree : Option MTP) (key : ByteSlice) : Option (Except Err ByteSlice) :=
  tree.map (fun t => t.GetValue key)

/-- A header root is fresh when its tree handle is nil or the root equals the root of
the tree. -/
def rootFresh (tree : Option MTP) (root : Option ByteSlice) : Prop :=
  match tree with
  | some t => root = t.Root
  | none => True

instance (tree : Option MTP) (root : Option ByteSlice) : Decidable (rootFresh tree root) := by
  unfold rootFresh; split <;> exact inferInstance

/-- Each header root whose tree handle is present equals that tree's root. -/
def rootsFresh (block : Block) : Prop :=
  rootFresh block.StatTree block.StatRoot ∧ rootFresh block.TxTree block.TxRoot ∧
    rootFresh block.EventTree block.EventRoot ∧ rootFresh block.TokenTree block.TokenRoot

instance (block : Block) : Decidable (rootsFresh block) := by
  unfold rootsFresh; exact inferInstance

/-- A block made by `NewBlock` on top of a block whose state tree holds the account `0a`. -/
def freshBlock : Block :=
  NewBlock refEnv 0 0 (CreateAccount refEnv (ledgerBlock 2 []) [10] []).block

/-- One account, `0a` holding 5; the block fee is 1. -/
def loneSenderBlock : Block := ledgerBlock 1 [⟨[10], [], 5⟩]

/-- A transfer of 10 from `0a` to `0b`. -/
def orphanTx : Transaction := { From := "0a", To := "0b", Amount := 10, tag := 0 }

/-- Two accounts, `0a` holding 1 and `0b` holding the largest `int64`; the block fee is 0. -/
def brimBlock : Block := ledgerBlock 0 [⟨[10], [], 1⟩, ⟨[11], [], 2 ^ 63 - 1⟩]

/-- A transfer of 1 from `0a` to `0b`. -/
def brimTx : Transaction := { From := "0a", To := "0b", Amount := 1, tag := 0 }

/-! ## The blockchain manager (`blockchain_manager.go`) -/

/-- Modelled from the spec: `blockchain.BlockChain`, declared outside the sources at hand;
a chain identifier "plus chain-level constants: consensus kind, fee schedule, difficulty,
target block interval", the arguments of `NewBlockChain`. -/
structure BlockChain where
  ChainId : Option ByteSlice
  Consensus : Nat
  Fee : Int
  Difficulty : Option ByteSlice
  BlockInterval : Int
  deriving DecidableEq, Repr

/-- Modelled from the spec: `consensus.DPOSConsensus`, the engine that drives one chain. -/
structure DPOSConsensus where
  Blockchain : BlockChain
  deriving DecidableEq, Repr

/-- Modelled from the spec: `consensus.NewDPoSConsensus`. -/
def NewDPoSConsensus (blockchain : BlockChain) : DPOSConsensus := { Blockchain := blockchain }

/-- The struct `BlockchainManager`; a Go map is a list of bindings, the most recent
binding of a key first. -/
structure BlockchainManager where
  Blockchains : List (String × BlockChain)
  Consensuses : List (String × DPOSConsensus)
  deriving DecidableEq, Repr

/-- The package variables of `blockchain_manager`, and the engines whose `StableRun` was
started with `go`, in the order they were started. -/
structure ManagerState where
  MainBlockChain : Option BlockChain
  MainBlockChainConsensus : Option DPOSConsensus
  blockchainManager : Option BlockchainManager
  running : List DPOSConsensus
  deriving DecidableEq, Repr

/-- The functions and constants that `blockchain_manager.go` imports. -/
structure ManagerEnv where
  /-- Go `blockchain.NewBlockChain` applied to the five backbone constants -/
  backbone : BlockChain
  /-- Go `i_consensus.DPOS` -/
  DPOS : Nat
  /-- Go `db.GetDBInst().Get` -/
  dbGet : String → Except Err ByteSlice
  /-- Go `json.Unmarshal(value, &blockchains)`: a slice of pointers, or an error -/
  unmarshalChains : ByteSlice → Except Err (List (Option BlockChain))
  /-- Go `hex.EncodeToString` -/
  hexEncodeToString : Option ByteSlice → String

/-- The constant `BlockchainManagerDBKey`. -/
def BlockchainManagerDBKey : String := "BlockchainManagerDBKey"

/-- How `Init` ends: it returns, or it panics on a nil chain. -/
inductive InitOutcome where
  | returned (state : ManagerState)
  | panicked (state : ManagerState)
  deriving DecidableEq, Repr

/-- One turn of the loop of `Init`, on a chain that is not nil: both branches of the
`switch` make a DPoS engine. -/
def registerChain (menv : ManagerEnv) (manager : BlockchainManager)
    (running : List DPOSConsensus) (blockchain : BlockChain) :
    BlockchainManager × List DPOSConsensus :=
  let chainId := menv.hexEncodeToString blockchain.ChainId
  let manager := { manager with Blockchains := (chainId, blockchain) :: manager.Blockchains }
  if blockchain.Consensus = menv.DPOS then
    let consensus := NewDPoSConsensus blockchain
    ({ manager with Consensuses := (chainId, consensus) :: manager.Consensuses },
      running ++ [consensus])
  else
    let consensus := NewDPoSConsensus blockchain
    ({ manager with Consensuses := (chainId, consensus) :: manager.Consensuses },
      running ++ [consensus])

/-- The loop of `Init` over the decoded slice; `.error` is the panic at a nil element
(`blockchain.ChainId`), with the registry as it was then. -/
def registerAll (menv : ManagerEnv) (manager : BlockchainManager)
    (running : List DPOSConsensus) :
    List (Option BlockChain) →
      Except (BlockchainManager × List DPOSConsensus) (BlockchainManager × List DPOSConsensus)
  | [] => .ok (manager, running)
  | none :: _ => .error (manager, running)
  | some blockchain :: rest =>
    registerAll menv (registerChain menv manager running blockchain).1
      (registerChain menv manager running blockchain).2 rest

/-- The state after the first lines of `Init`: empty maps, the backbone chain and its
engine, started. -/
def backboneOnly (menv : ManagerEnv) : ManagerState :=
  { MainBlockChain := some menv.backbone
    MainBlockChainConsensus := some (NewDPoSConsensus menv.backbone)
    blockchainManager := some { Blockchains := [], Consensuses := [] }
    running := [NewDPoSConsensus menv.backbone] }

/-- Go `Init`. -/
def Init (menv : ManagerEnv) : InitOutcome :=
  let state := backboneOnly menv
  match menv.dbGet BlockchainManagerDBKey with
  | .error _ => .returned state
  | .ok value =>
    match menv.unmarshalChains value with
    | .error _ => .returned state
    | .ok blockchains =>
      match registerAll menv { Blockchains := [], Consensuses := [] } state.running
          blockchains with
      | .ok r => .returned { state with blockchainManager := some r.1, running := r.2 }
      | .error r => .panicked { state with blockchainManager := some r.1, running := r.2 }

/-- Two lowercase hexadecimal digits of a byte. -/
def hexByte (n : Nat) : List Char :=
  let digit (d : Nat) : Char := Char.ofNat (if d < 10 then 48 + d else 87 + d)
  [digit (n / 16 % 16), digit (n % 16)]

/-- Stand-in of the decoding of the chain registry: three numbers a chain, its
identifier byte, its consensus kind and its fee. -/
def refUnmarshalChains : ByteSlice → Except Err (List (Option BlockChain))
  | [] => .ok []
  | id :: kind :: fee :: rest =>
    match refUnmarshalChains rest with
    | .ok chains =>
      .ok (some { ChainId := some [id], Consensus := kind, Fee := fee, Difficulty := none,
                  BlockInterval := 3 } :: chains)
    | .error e => .error e
  | _ => .error Err.unmarshal

/-- The reference environment of the manager, over what the store holds under the key
of the registry. Kind 0 is DPoS. -/
def refManagerEnv (stored : Except Err ByteSlice) : ManagerEnv :=
  { backbone := { ChainId := some [0], Consensus := 0, Fee := 0, Difficulty := none,
                  BlockInterval := 3 }
    DPOS := 0
    dbGet := fun _ => stored
    unmarshalChains := refUnmarshalChains
    hexEncodeToString := fun bs => String.mk ((bs.getD []).flatMap hexByte) }

/-- The key under which `Init` registers a chain. -/
def chainKey (menv : ManagerEnv) (blockchain : BlockChain) : String :=
  menv.hexEncodeToString blockchain.ChainId

/-- A stored registry of two chains with the identifiers `01` and `02`; the second has
the consensus kind 7, which is not DPoS. -/
def pairRegistry : ByteSlice := [1, 0, 5, 2, 7, 6]

/-- A stored registry of two chains that share the identifier `01` and differ in fee. -/
def twinRegistry : ByteSlice := [1, 0, 5, 1, 0, 6]

/-- The chain with identifier byte `id`, consensus kind `kind` and fee `fee`, as the
reference decoding makes it. -/
def refChain (id kind : Nat) (fee : Int) : BlockChain :=
  { ChainId := some [id], Consensus := kind, Fee := fee, Difficulty := none,
    BlockInterval := 3 }

/-! ## Basic facts -/

theorem wrap64_of_isInt64 {x : Int} (h : isInt64 x) : wrap64 x = x := by
  unfold isInt64 at h
  unfold wrap64
  norm_num at h ⊢
  omega

theorem isInt64_wrap64 (x : Int) : isInt64 (wrap64 x) := by
  unfold isInt64 wrap64
  norm_num
  omega

theorem lookup_cons_self (k v : ByteSlice) (l : List (ByteSlice × ByteSlice)) :
    List.lookup k ((k, v) :: l) = some v := by
  simp [List.lookup]

theorem lookup_cons_of_ne {k k2 : ByteSlice} (v : ByteSlice) (l : List (ByteSlice × ByteSlice))
    (h : k2 ≠ k) : List.lookup k2 ((k, v) :: l) = List.lookup k2 l := by
  have : (k2 == k) = false := by simpa using h
  simp [List.lookup, this]

theorem GetValue_MustInsert_self (env : Env) (t : MTP) (k v : ByteSlice) :
    (t.MustInsert env k v).GetValue k = .ok v := by
  simp [MTP.GetValue, MTP.MustInsert, lookup_cons_self]

theorem GetValue_MustInsert_of_ne (env : Env) (t : MTP) {k k2 : ByteSlice} (v : ByteSlice)
    (h : k2 ≠ k) : (t.MustInsert env k v).GetValue k2 = t.GetValue k2 := by
  simp [MTP.GetValue, MTP.MustInsert, lookup_cons_of_ne v t.entries h]

/-- Reading an account depends on the block through its state tree only. -/
theorem GetAccount_congr (env : Env) {b b2 : Block} (h : b2.StatTree = b.StatTree)
    (address : ByteSlice) : GetAccount env b2 address = GetAccount env b address := by
  unfold GetAccount; rw [h]

@[simp]
theorem UpdateMPTPlusRoot_StatTree (b : Block) :
    (UpdateMPTPlusRoot b).StatTree = b.StatTree := by
  unfold UpdateMPTPlusRoot refreshToken refreshEvent refreshTx refreshStat
  repeat' split
  all_goals rfl

@[simp]
theorem UpdateMPTPlusRoot_TxTree (b : Block) :
    (UpdateMPTPlusRoot b).TxTree = b.TxTree := by
  unfold UpdateMPTPlusRoot refreshToken refreshEvent refreshTx refreshStat
  repeat' split
  all_goals rfl

@[simp]
theorem UpdateMPTPlusRoot_TotalFee (b : Block) :
    (UpdateMPTPlusRoot b).TotalFee = b.TotalFee := by
  unfold UpdateMPTPlusRoot refreshToken refreshEvent refreshTx refreshStat
  repeat' split
  all_goals rfl

@[simp]
theorem UpdateMPTPlusRoot_Fee (b : Block) :
    (UpdateMPTPlusRoot b).Fee = b.Fee := by
  unfold UpdateMPTPlusRoot refreshToken refreshEvent refreshTx refreshStat
  repeat' split
  all_goals rfl

@[simp]
theorem UpdateMPTPlusRoot_CurrentHash (b : Block) :
    (UpdateMPTPlusRoot b).CurrentHash = b.CurrentHash := by
  unfold UpdateMPTPlusRoot refreshToken refreshEvent refreshTx refreshStat
  repeat' split
  all_goals rfl

/-- The tail of `NewTransaction` leaves the state tree, the fee and the collected fees
as they are. -/
theorem recordResult_block (env : Env) (b : Block) (tx : Transaction) (r : TxResult) :
    (recordResult env b tx r).block.StatTree = b.StatTree ∧
      (recordResult env b tx r).block.TotalFee = b.TotalFee ∧
      (recordResult env b tx r).block.Fee = b.Fee := by
  unfold recordResult
  cases b.TxTree <;> simp [Outcome.block]

/-- With a transaction tree at hand the tail of `NewTransaction` returns its argument. -/
theorem recordResult_returns (env : Env) (b : Block) (tx : Transaction) (r : TxResult)
    {txTree : MTP} (h : b.TxTree = some txTree) :
    recordResult env b tx r = .returned (recordResult env b tx r).block r := by
  unfold recordResult
  simp [h, Outcome.block]

/-- The rejecting branch: the sender is readable and the balance check fails. -/
theorem NewTransaction_reject (env : Env) (b : Block) (tx : Transaction) (fee : Int)
    {account : Account}
    (hfrom : GetAccount env b (env.hexDecode tx.From) = some (.ok account))
    (hlt : account.GetAmount < wrap64 (tx.Amount + fee)) :
    NewTransaction env b tx fee =
      recordResult env b tx (NewTransactionResult tx fee false "no enough amount") := by
  have hto : ∃ r2, GetAccount env b (env.hexDecode tx.To) = some r2 := by
    unfold GetAccount at hfrom ⊢
    cases hst : b.StatTree with
    | none => simp [hst] at hfrom
    | some t =>
      simp only []
      split
      · exact ⟨_, rfl⟩
      · split
        · exact ⟨_, rfl⟩
        · exact ⟨_, rfl⟩
  obtain ⟨r2, hto⟩ := hto
  unfold NewTransaction
  simp only [hfrom, hto, Except.toOption, hlt, if_true]

/-- The accepting branch: both accounts are readable and the balance check passes. -/
theorem NewTransaction_accept (env : Env) (b : Block) (tx : Transaction) (fee : Int)
    {account reciever : Account} {statTree : MTP}
    (hst : b.StatTree = some statTree)
    (hfrom : GetAccount env b (env.hexDecode tx.From) = some (.ok account))
    (hto : GetAccount env b (env.hexDecode tx.To) = some (.ok reciever))
    (hge : ¬ account.GetAmount < wrap64 (tx.Amount + fee)) :
    NewTransaction env b tx fee =
      recordResult env
        { b with
          TotalFee := wrap64 (b.TotalFee + b.Fee)
          StatTree := some
            ((statTree.MustInsert env (env.hexDecode tx.From)
                (env.accountToBytes (account.ReduceAmount (wrap64 (tx.Amount + b.Fee))))).MustInsert
              env (env.hexDecode tx.To) (env.accountToBytes (reciever.AddAmount tx.Amount))) }
        tx (NewTransactionResult tx fee true "") := by
  unfold NewTransaction
  simp only [hfrom, hto, Except.toOption, hge, if_false, hst]

/-- Reading the address that was written last. -/
theorem GetAccount_MustInsert_self (env : Env) (b : Block) (t : MTP) (k v : ByteSlice)
    (a : Account) (hst : b.StatTree = some (t.MustInsert env k v))
    (hdec : env.unmarshalAccount v = some a) : GetAccount env b k = some (.ok a) := by
  unfold GetAccount
  simp [hst, GetValue_MustInsert_self, hdec]

/-- Reading any other address than the one written last. -/
theorem GetAccount_MustInsert_of_ne (env : Env) (b b0 : Block) (t : MTP) {k k2 : ByteSlice}
    (v : ByteSlice) (hst : b.StatTree = some (t.MustInsert env k v))
    (hst0 : b0.StatTree = some t) (h : k2 ≠ k) :
    GetAccount env b k2 = GetAccount env b0 k2 := by
  unfold GetAccount
  simp [hst, hst0, GetValue_MustInsert_of_ne env t v h]

/-- The state tree after an accepted transfer, read at any address `k`: the receiver's
copy at the receiver's address, else the sender's copy at the sender's address, else
what was there. -/
theorem GetAccount_after_accept (env : Env) (b : Block) (tx : Transaction) (fee : Int)
    {account reciever : Account} {statTree : MTP}
    (hrt : ∀ a, env.unmarshalAccount (env.accountToBytes a) = some a)
    (hst : b.StatTree = some statTree)
    (hfrom : GetAccount env b (env.hexDecode tx.From) = some (.ok account))
    (hto : GetAccount env b (env.hexDecode tx.To) = some (.ok reciever))
    (hge : ¬ account.GetAmount < wrap64 (tx.Amount + fee)) (k : ByteSlice) :
    GetAccount env (NewTransaction env b tx fee).block k =
      if k = env.hexDecode tx.To then some (.ok (reciever.AddAmount tx.Amount))
      else if k = env.hexDecode tx.From then
        some (.ok (account.ReduceAmount (wrap64 (tx.Amount + b.Fee))))
      else GetAccount env b k := by
  rw [NewTransaction_accept env b tx fee hst hfrom hto hge]
  rw [GetAccount_congr env (recordResult_block env _ tx _).1]
  by_cases h1 : k = env.hexDecode tx.To
  · subst h1
    rw [if_pos rfl]
    exact GetAccount_MustInsert_self env _ _ _ _ _ rfl (hrt _)
  · rw [if_neg h1]
    rw [GetAccount_MustInsert_of_ne env _
      { b with StatTree := some (statTree.MustInsert env (env.hexDecode tx.From)
          (env.accountToBytes (account.ReduceAmount (wrap64 (tx.Amount + b.Fee))))) }
      _ _ rfl rfl h1]
    by_cases h2 : k = env.hexDecode tx.From
    · subst h2
      rw [if_pos rfl]
      exact GetAccount_MustInsert_self env _ _ _ _ _ rfl (hrt _)
    · rw [if_neg h2]
      exact GetAccount_MustInsert_of_ne env _ b _ _ rfl hst h2

/-- Conservation for a transfer between two different addresses, in `int64` arithmetic:
the sender loses `tx.Amount + block.Fee`, the receiver gains `tx.Amount`, and
`block.TotalFee` grows by `block.Fee`. -/
theorem transfer_between_distinct (env : Env) (b : Block) (tx : Transaction) (fee : Int)
    {account reciever : Account} {statTree : MTP}
    (hrt : ∀ a, env.unmarshalAccount (env.accountToBytes a) = some a)
    (hst : b.StatTree = some statTree)
    (hfrom : GetAccount env b (env.hexDecode tx.From) = some (.ok account))
    (hto : GetAccount env b (env.hexDecode tx.To) = some (.ok reciever))
    (hge : ¬ account.GetAmount < wrap64 (tx.Amount + fee))
    (hne : env.hexDecode tx.From ≠ env.hexDecode tx.To) :
    balanceOf env (NewTransaction env b tx fee).block (env.hexDecode tx.From) =
        some (wrap64 (account.amount - wrap64 (tx.Amount + b.Fee))) ∧
      balanceOf env (NewTransaction env b tx fee).block (env.hexDecode tx.To) =
        some (wrap64 (reciever.amount + tx.Amount)) ∧
      (NewTransaction env b tx fee).block.TotalFee = wrap64 (b.TotalFee + b.Fee) := by
  refine ⟨?_, ?_, ?_⟩
  · unfold balanceOf
    rw [GetAccount_after_accept env b tx fee hrt hst hfrom hto hge, if_neg hne, if_pos rfl]
    rfl
  · unfold balanceOf
    rw [GetAccount_after_accept env b tx fee hrt hst hfrom hto hge, if_pos rfl]
    rfl
  · rw [NewTransaction_accept env b tx fee hst hfrom hto hge]
    exact (recordResult_block env _ tx _).2.1

/-- A transfer from an address to itself: the receiver's copy is written last, so the
balance grows by `tx.Amount` although `block.Fee` is collected. -/
theorem transfer_to_self (env : Env) (b : Block) (tx : Transaction) (fee : Int)
    {account : Account} {statTree : MTP}
    (hrt : ∀ a, env.unmarshalAccount (env.accountToBytes a) = some a)
    (hst : b.StatTree = some statTree)
    (hfrom : GetAccount env b (env.hexDecode tx.From) = some (.ok account))
    (hge : ¬ account.GetAmount < wrap64 (tx.Amount + fee))
    (heq : env.hexDecode tx.From = env.hexDecode tx.To) :
    balanceOf env (NewTransaction env b tx fee).block (env.hexDecode tx.From) =
        some (wrap64 (account.amount + tx.Amount)) ∧
      (NewTransaction env b tx fee).block.TotalFee = wrap64 (b.TotalFee + b.Fee) := by
  have hto : GetAccount env b (env.hexDecode tx.To) = some (.ok account) := heq ▸ hfrom
  refine ⟨?_, ?_⟩
  · unfold balanceOf
    rw [GetAccount_after_accept env b tx fee hrt hst hfrom hto hge, if_pos heq]
    rfl
  · rw [NewTransaction_accept env b tx fee hst hfrom hto hge]
    exact (recordResult_block env _ tx _).2.1

/-- The reference encoding of accounts is read back as written. -/
theorem refUnmarshal_refMarshal (a : Account) :
    refUnmarshalAccount (refMarshalAccount a) = some a := by
  obtain ⟨address, publicKey, amount⟩ := a
  simp only [refMarshalAccount, refUnmarshalAccount, List.take_left, List.drop_left,
    Option.some.injEq, Account.mk.injEq, true_and]
  by_cases h : amount < 0
  · simp only [h, if_true]
    omega
  · simp only [h, if_false]
    split <;> omega

/-- C1 (balance conservation on success) at a transfer whose sender is its receiver.
The account at `0a` holds 1000 and the block fee is 2. `NewTransaction` returns a result
with `success = true`, `TotalFee` grows by the fee 2, and the balance read back at `0a` is
1100: the receiver's copy, written last, replaces the debited sender's copy (898). The
sender has not lost `Amount + Fee`, and 100 units come from nowhere. -/
theorem C1_self_transfer_not_conserved :
    NewTransaction refEnv selfTransferBlock selfTransferTx 2 =
        .returned (NewTransaction refEnv selfTransferBlock selfTransferTx 2).block
          (NewTransactionResult selfTransferTx 2 true "") ∧
      balanceOf refEnv selfTransferBlock (refEnv.hexDecode selfTransferTx.From) = some 1000 ∧
      balanceOf refEnv (NewTransaction refEnv selfTransferBlock selfTransferTx 2).block
        (refEnv.hexDecode selfTransferTx.From) = some 1100 ∧
      selfTransferBlock.TotalFee = 0 ∧
      (NewTransaction refEnv selfTransferBlock selfTransferTx 2).block.TotalFee = 2 := by
  decide

/-- C3 (rejection leaves the ledger untouched). On a block with a transaction tree, if
the sender and the receiver are readable and the sender's balance is below
`tx.Amount + fee` (the `int64` sum of the source, `fee` the argument of the call), then
`NewTransaction` returns the result `success = false`, reason "no enough amount"; the
state tree is the one of before, so every balance read from it is unchanged, the sender's
and the receiver's included, and `TotalFee` is unchanged. -/
theorem C3_rejection_leaves_ledger (env : Env) (b : Block) (tx : Transaction) (fee : Int)
    (account reciever : Account) (txTree : MTP)
    (htx : b.TxTree = some txTree)
    (hfrom : GetAccount env b (env.hexDecode tx.From) = some (.ok account))
    (hto : GetAccount env b (env.hexDecode tx.To) = some (.ok reciever))
    (hlt : account.GetAmount < wrap64 (tx.Amount + fee)) :
    ∃ b2 r, NewTransaction env b tx fee = .returned b2 r ∧
      r.success = false ∧ r.reason = "no enough amount" ∧
      b2.StatTree = b.StatTree ∧
      b2.TotalFee = b.TotalFee ∧
      balanceOf env b2 (env.hexDecode tx.From) = some account.GetAmount ∧
      balanceOf env b2 (env.hexDecode tx.To) = some reciever.GetAmount ∧
      ∀ address, GetAccount env b2 address = GetAccount env b address := by
  have hrej := NewTransaction_reject env b tx fee hfrom hlt
  have hret := recordResult_returns env b tx
    (NewTransactionResult tx fee false "no enough amount") htx
  have hblk := recordResult_block env b tx (NewTransactionResult tx fee false "no enough amount")
  refine ⟨_, _, hrej.trans hret, rfl, rfl, hblk.1, hblk.2.1, ?_, ?_, ?_⟩
  · unfold balanceOf; rw [GetAccount_congr env hblk.1, hfrom]
  · unfold balanceOf; rw [GetAccount_congr env hblk.1, hto]
  · exact fun address => GetAccount_congr env hblk.1 address

/-- C3 at a concrete block: the sender holds 5 and is asked for 5 plus a fee of 1. -/
theorem C3_rejection_leaves_ledger_witness :
    ∃ b2 r, NewTransaction refEnv (ledgerBlock 1 [⟨[10], [], 5⟩, ⟨[11], [], 0⟩])
        { From := "0a", To := "0b", Amount := 5, tag := 0 } 1 = .returned b2 r ∧
      r.success = false ∧ r.reason = "no enough amount" ∧
      b2.StatTree = (ledgerBlock 1 [⟨[10], [], 5⟩, ⟨[11], [], 0⟩]).StatTree ∧
      b2.TotalFee = (ledgerBlock 1 [⟨[10], [], 5⟩, ⟨[11], [], 0⟩]).TotalFee ∧
      balanceOf refEnv b2 [10] = some 5 ∧
      balanceOf refEnv b2 [11] = some 0 ∧
      ∀ address, GetAccount refEnv b2 address =
        GetAccount refEnv (ledgerBlock 1 [⟨[10], [], 5⟩, ⟨[11], [], 0⟩]) address :=
  C3_rejection_leaves_ledger refEnv (ledgerBlock 1 [⟨[10], [], 5⟩, ⟨[11], [], 0⟩])
    { From := "0a", To := "0b", Amount := 5, tag := 0 } 1
    ⟨[10], [], 5⟩ ⟨[11], [], 0⟩ (NewMTP refEnv) rfl rfl rfl (by decide)

/-- Where `NewTransaction` leaves the state tree: untouched, or both accounts were
readable and the balance check passed. -/
theorem NewTransaction_cases (env : Env) (b : Block) (tx : Transaction) (fee : Int) :
    (NewTransaction env b tx fee).block.StatTree = b.StatTree ∨
      ∃ account reciever statTree, b.StatTree = some statTree ∧
        GetAccount env b (env.hexDecode tx.From) = some (.ok account) ∧
        GetAccount env b (env.hexDecode tx.To) = some (.ok reciever) ∧
        ¬ account.GetAmount < wrap64 (tx.Amount + fee) := by
  cases h1 : GetAccount env b (env.hexDecode tx.From) with
  | none => left; simp [NewTransaction, h1, Outcome.block]
  | some r1 =>
    cases h2 : GetAccount env b (env.hexDecode tx.To) with
    | none => left; simp [NewTransaction, h1, h2, Outcome.block]
    | some r2 =>
      cases r1 with
      | error e => left; simp [NewTransaction, h1, h2, Except.toOption, Outcome.block]
      | ok account =>
        by_cases hlt : account.GetAmount < wrap64 (tx.Amount + fee)
        · left
          rw [NewTransaction_reject env b tx fee h1 hlt]
          exact (recordResult_block env b tx _).1
        · cases r2 with
          | error e =>
            left; simp [NewTransaction, h1, h2, Except.toOption, Outcome.block, hlt]
          | ok reciever =>
            cases hst : b.StatTree with
            | none => simp [GetAccount, hst] at h1
            | some statTree => exact Or.inr ⟨account, reciever, statTree, rfl, rfl, rfl, hlt⟩

/-- Writing one readable account with a non-negative `int64` balance keeps a ledger
solvent. -/
theorem solvent_MustInsert (env : Env) (b b2 : Block) (t : MTP) (k v : ByteSlice)
    (a0 : Account) (h : solvent env b) (hst : b.StatTree = some t)
    (hst2 : b2.StatTree = some (t.MustInsert env k v))
    (hdec : env.unmarshalAccount v = some a0)
    (hgood : 0 ≤ a0.GetAmount ∧ a0.GetAmount < 2 ^ 63) : solvent env b2 := by
  intro address account hacc
  by_cases hk : address = k
  · subst hk
    rw [GetAccount_MustInsert_self env b2 t address v a0 hst2 hdec] at hacc
    cases hacc
    exact hgood
  · rw [GetAccount_MustInsert_of_ne env b2 b t v hst2 hst hk] at hacc
    exact h address account hacc

/-- A block with the same state tree is as solvent. -/
theorem solvent_congr (env : Env) {b b2 : Block} (hst : b2.StatTree = b.StatTree)
    (h : solvent env b) : solvent env b2 := by
  intro address account hacc
  rw [GetAccount_congr env hst] at hacc
  exact h address account hacc

/-- One admissible call keeps a ledger solvent. -/
theorem solvent_step (env : Env)
    (hrtB : ∀ a, env.unmarshalAccount (env.accountToBytes a) = some a)
    (hrtM : ∀ a, env.unmarshalAccount (env.marshalAccount a) = some a)
    (b : Block) (op : Op) (h : solvent env b) (hadm : admissible env b op) :
    solvent env (step env b op) := by
  cases op with
  | createAccount address pubKey =>
    cases hst : b.StatTree with
    | none => simpa only [step, CreateAccount, ExistAddress, hst, Outcome.block] using h
    | some t =>
      cases hc : t.ContainsKey address with
      | true => simpa only [step, CreateAccount, ExistAddress, hst, hc, Outcome.block] using h
      | false =>
        simp only [step, CreateAccount, ExistAddress, newAccount, hst, hc, Outcome.block]
        exact solvent_MustInsert env b _ t address _ (NewAccount address pubKey) h hst
          (by simp) (hrtM _) (by simp [NewAccount, Account.GetAmount])
  | insertAccount account =>
    cases hst : b.StatTree with
    | none => simpa only [step, InsertAccount, ExistAddress, hst, Outcome.block] using h
    | some t =>
      cases hc : t.ContainsKey account.Address with
      | true => simpa only [step, InsertAccount, ExistAddress, hst, hc, Outcome.block] using h
      | false =>
        simp only [step, InsertAccount, ExistAddress, hst, hc, Outcome.block]
        exact solvent_MustInsert env b _ t account.Address _ account h hst
          (by simp) (hrtM _) hadm
  | newTransaction tx fee =>
    unfold step
    rcases NewTransaction_cases env b tx fee with hsame | ⟨account, reciever, t, hst, hfrom, hto, hge⟩
    · exact solvent_congr env hsame h
    · obtain ⟨hamt, hfee0, hfee, hsum, hrecv⟩ := hadm
      have hs := h _ _ hfrom
      have hr := h _ _ hto
      have hrecv2 := hrecv reciever.GetAmount (by unfold balanceOf; rw [hto])
      simp only [Account.GetAmount] at hs hr hrecv2 hge
      have hw1 : wrap64 (tx.Amount + fee) = tx.Amount + fee :=
        wrap64_of_isInt64 (by unfold isInt64; constructor <;> omega)
      have hw2 : wrap64 (tx.Amount + b.Fee) = tx.Amount + b.Fee :=
        wrap64_of_isInt64 (by unfold isInt64; constructor <;> omega)
      rw [hw1] at hge
      intro k a hk
      have hge2 : ¬ account.GetAmount < wrap64 (tx.Amount + fee) := by
        rw [hw1]; simpa only [Account.GetAmount] using hge
      rw [GetAccount_after_accept env b tx fee hrtB hst hfrom hto hge2 k] at hk
      split at hk
      · cases hk
        simp only [Account.GetAmount, Account.AddAmount]
        rw [wrap64_of_isInt64 (by unfold isInt64; constructor <;> omega)]
        constructor <;> omega
      · split at hk
        · cases hk
          simp only [Account.GetAmount, Account.ReduceAmount, hw2]
          rw [wrap64_of_isInt64 (by unfold isInt64; constructor <;> omega)]
          constructor <;> omega
        · exact h k a hk

/-- A binding found by `lookup` is a member of the list. -/
theorem mem_of_lookup {k v : ByteSlice} :
    ∀ {l : List (ByteSlice × ByteSlice)}, List.lookup k l = some v → (k, v) ∈ l := by
  intro l
  induction l with
  | nil => intro h; simp [List.lookup] at h
  | cons p l ih =>
    intro h
    obtain ⟨k2, v2⟩ := p
    by_cases hk : k = k2
    · subst hk
      rw [lookup_cons_self] at h
      cases h
      exact List.mem_cons_self _ _
    · rw [lookup_cons_of_ne v2 l hk] at h
      exact List.mem_cons_of_mem _ (ih h)

/-- A reference ledger built from accounts with balances in `[0, 2^63)` is solvent. -/
theorem solvent_ledgerBlock (fee : Int) (accounts : List Account)
    (h : ∀ a ∈ accounts, 0 ≤ a.GetAmount ∧ a.GetAmount < 2 ^ 63) :
    solvent refEnv (ledgerBlock fee accounts) := by
  intro address account hacc
  simp only [GetAccount, ledgerBlock, MTP.GetValue] at hacc
  cases hl : List.lookup address
      (List.map (fun a => (a.address, refMarshalAccount a)) accounts) with
  | none => rw [hl] at hacc; simp at hacc
  | some v =>
    rw [hl] at hacc
    obtain ⟨a, ha, heq⟩ := List.mem_map.1 (mem_of_lookup hl)
    have hv2 : v = refMarshalAccount a := (congrArg Prod.snd heq).symm
    subst hv2
    have hdec : refEnv.unmarshalAccount (refMarshalAccount a) = some a :=
      refUnmarshal_refMarshal a
    simp only [hdec] at hacc
    cases hacc
    exact h _ ha

/-- Admissible sequences of calls keep a ledger solvent. -/
theorem solvent_run (env : Env)
    (hrtB : ∀ a, env.unmarshalAccount (env.accountToBytes a) = some a)
    (hrtM : ∀ a, env.unmarshalAccount (env.marshalAccount a) = some a)
    (ops : List Op) : ∀ b : Block, solvent env b → admissibleRun env b ops →
      solvent env (run env b ops) := by
  induction ops with
  | nil => intro b h _; exact h
  | cons op ops ih =>
    intro b h hadm
    exact ih (step env b op) (solvent_step env hrtB hrtM b op h hadm.1) hadm.2

/-- C2 (no negative balances), as stated, fails. In `overdraftBlock` both balances are
non-negative (5 and 0) and the block fee is 10. The transfer of 5 with the fee argument 0
passes the check `5 < 5 + 0`, is accepted, and the sender is charged `5 + 10`: its
balance is -10 afterwards. -/
theorem C2_counterexample :
    nonNegative refEnv overdraftBlock ∧
      (∃ b2, NewTransaction refEnv overdraftBlock overdraftTx 0 =
        .returned b2 (NewTransactionResult overdraftTx 0 true "")) ∧
      balanceOf refEnv (run refEnv overdraftBlock [Op.newTransaction overdraftTx 0]) [10] =
        some (-10) ∧
      ¬ nonNegative refEnv (run refEnv overdraftBlock [Op.newTransaction overdraftTx 0]) := by
  refine ⟨?_, ⟨_, rfl⟩, by decide, ?_⟩
  · intro address account h
    exact (solvent_ledgerBlock 10 _ (by decide) address account h).1
  · intro hnn
    have h := hnn [10] ⟨[10], [], -10⟩ rfl
    exact absurd h (by decide)

/-- C2 (no negative balances), amended. Let accounts be read back as written. From a
block whose readable accounts all have a balance in `[0, 2^63)`, every sequence of
`CreateAccount`, `InsertAccount` and `NewTransaction` calls that is admissible (inserted
balances in `[0, 2^63)`; transfers with `0 ≤ Amount`, `0 ≤ block.Fee ≤ fee`, and neither
`Amount + fee` nor the receiver's new balance overflowing `int64`) leaves a block whose
readable accounts all have a balance in `[0, 2^63)`. In that block, a transfer with
`block.Fee ≤ fee` and `Amount + fee` within `int64` that would take the sender below zero,
`balance - (Amount + block.Fee) < 0`, takes the rejecting branch: the result is
`success = false` and the state tree is not written. -/
theorem C2_no_negative_balances (env : Env)
    (hrtB : ∀ a, env.unmarshalAccount (env.accountToBytes a) = some a)
    (hrtM : ∀ a, env.unmarshalAccount (env.marshalAccount a) = some a)
    (b : Block) (ops : List Op) (h0 : solvent env b) (hadm : admissibleRun env b ops) :
    solvent env (run env b ops) ∧
      ∀ (tx : Transaction) (fee : Int) (account : Account),
        GetAccount env (run env b ops) (env.hexDecode tx.From) = some (.ok account) →
        (run env b ops).Fee ≤ fee → isInt64 (tx.Amount + fee) →
        account.GetAmount - (tx.Amount + (run env b ops).Fee) < 0 →
        NewTransaction env (run env b ops) tx fee =
            recordResult env (run env b ops) tx
              (NewTransactionResult tx fee false "no enough amount") ∧
          (NewTransaction env (run env b ops) tx fee).block.StatTree =
            (run env b ops).StatTree := by
  refine ⟨solvent_run env hrtB hrtM ops b h0 hadm, ?_⟩
  intro tx fee account hfrom hfee hsum hneg
  have hlt : account.GetAmount < wrap64 (tx.Amount + fee) := by
    rw [wrap64_of_isInt64 hsum]; omega
  have hrej := NewTransaction_reject env (run env b ops) tx fee hfrom hlt
  refine ⟨hrej, ?_⟩
  rw [hrej]
  exact (recordResult_block env _ tx _).1

/-- C2, amended, on a run of three calls from `witnessLedger`. -/
theorem C2_no_negative_balances_witness :
    solvent refEnv (run refEnv witnessLedger witnessOps) ∧
      ∀ (tx : Transaction) (fee : Int) (account : Account),
        GetAccount refEnv (run refEnv witnessLedger witnessOps) (refEnv.hexDecode tx.From) =
          some (.ok account) →
        (run refEnv witnessLedger witnessOps).Fee ≤ fee → isInt64 (tx.Amount + fee) →
        account.GetAmount - (tx.Amount + (run refEnv witnessLedger witnessOps).Fee) < 0 →
        NewTransaction refEnv (run refEnv witnessLedger witnessOps) tx fee =
            recordResult refEnv (run refEnv witnessLedger witnessOps) tx
              (NewTransactionResult tx fee false "no enough amount") ∧
          (NewTransaction refEnv (run refEnv witnessLedger witnessOps) tx fee).block.StatTree =
            (run refEnv witnessLedger witnessOps).StatTree :=
  C2_no_negative_balances refEnv refUnmarshal_refMarshal refUnmarshal_refMarshal
    witnessLedger witnessOps (solvent_ledgerBlock 2 _ (by decide))
    ⟨trivial, ⟨by decide, by decide⟩, ⟨by decide, by decide, by decide, by decide, by
      intro balance hb
      have h0 : balanceOf refEnv
          (step refEnv (step refEnv witnessLedger (Op.createAccount [12] []))
            (Op.insertAccount ⟨[13], [], 7⟩))
          (refEnv.hexDecode "0b") = some 0 := by decide
      rw [h0] at hb
      cases hb
      decide⟩, trivial⟩

/-! ## Hashing and validation -/

theorem bytesEqual_some_some (x y : ByteSlice) : bytesEqual (some x) (some y) = true ↔ x = y := by
  simp [bytesEqual]

/-- Refreshing the roots does not depend on the stored hash. -/
theorem UpdateMPTPlusRoot_setHash (b : Block) (c : Option ByteSlice) :
    UpdateMPTPlusRoot { b with CurrentHash := c } =
      { UpdateMPTPlusRoot b with CurrentHash := c } := by
  obtain ⟨_, _, _, _, _, _, _, _, _, _, st, _, tt, _, et, _, kt, _⟩ := b
  cases st <;> cases tt <;> cases et <;> cases kt <;> rfl

/-- Refreshing the roots twice is refreshing them once. -/
theorem UpdateMPTPlusRoot_idem (b : Block) :
    UpdateMPTPlusRoot (UpdateMPTPlusRoot b) = UpdateMPTPlusRoot b := by
  obtain ⟨_, _, _, _, _, _, _, _, _, _, st, _, tt, _, et, _, kt, _⟩ := b
  cases st <;> cases tt <;> cases et <;> cases kt <;> rfl

/-- The digest that a second `CaculateHash` computes: the encoding now holds the first
digest in the field `currentHash`. -/
theorem CaculateHash_twice (env : Env) (b : Block) :
    (CaculateHash env (CaculateHash env b).1).2 =
      env.Sha3_256 (env.marshalBlock
        { (UpdateMPTPlusRoot b).header with currentHash := some (CaculateHash env b).2 }) := by
  simp only [CaculateHash, Block.Bytes, UpdateMPTPlusRoot_setHash, UpdateMPTPlusRoot_idem]
  rfl

/-- The comparison in `Validate` is between the digest that `CaculateHash` has just
stored and the digest it returns: `Validate` returns nil on every block. -/
theorem Validate_accepts (env : Env) (b : Block) : Validate env b = none := by
  simp [Validate, CaculateHash, bytesEqual]

/-- After `CaculateHash`, the stored hash is the digest of the block's encoding exactly
when the digest is a fixed point: the encoding that holds the digest hashes to that
digest. -/
theorem finalized_hash_is_digest_iff (env : Env) (b : Block) :
    bytesEqual (CaculateHash env b).1.CurrentHash
        (some (env.Sha3_256 (Block.Bytes env (CaculateHash env b).1).2)) = true ↔
      env.Sha3_256 (env.marshalBlock
        { (UpdateMPTPlusRoot b).header with currentHash := some (CaculateHash env b).2 }) =
        (CaculateHash env b).2 := by
  have hcur : (CaculateHash env b).1.CurrentHash = some (CaculateHash env b).2 := rfl
  have hre : env.Sha3_256 (Block.Bytes env (CaculateHash env b).1).2 =
      (CaculateHash env (CaculateHash env b).1).2 := rfl
  rw [hcur, hre, CaculateHash_twice, bytesEqual_some_some]
  exact eq_comm

/-- If headers that differ in `currentHash` have different digests (no collision), then
after `CaculateHash` on a block whose stored hash was not already the digest, the stored
hash is not the digest of the block's encoding. -/
theorem finalized_hash_is_not_digest (env : Env) (b : Block)
    (hinj : ∀ (h : Header) (c1 c2 : Option ByteSlice),
      env.Sha3_256 (env.marshalBlock { h with currentHash := c1 }) =
        env.Sha3_256 (env.marshalBlock { h with currentHash := c2 }) → c1 = c2)
    (hold : b.CurrentHash ≠ some (CaculateHash env b).2) :
    bytesEqual (CaculateHash env b).1.CurrentHash
      (some (env.Sha3_256 (Block.Bytes env (CaculateHash env b).1).2)) = false := by
  cases heq : bytesEqual (CaculateHash env b).1.CurrentHash
      (some (env.Sha3_256 (Block.Bytes env (CaculateHash env b).1).2)) with
  | false => rfl
  | true =>
    exfalso
    have h := (finalized_hash_is_digest_iff env b).1 heq
    have h1 : (CaculateHash env b).2 =
        env.Sha3_256 (env.marshalBlock
          { (UpdateMPTPlusRoot b).header with currentHash := b.CurrentHash }) := by
      simp only [CaculateHash, Block.Bytes]
      congr 2
      simp [Block.header]
    have h2 := hinj (UpdateMPTPlusRoot b).header _ _ (h.trans h1)
    exact hold h2.symm

/-- C5 (tamper detection) on `tamperedBlock`, whose stored hash `010203` differs from
the recomputed digest. `CaculateHash` assigns `block.CurrentHash` on the copy that
`Validate` works on, and the call is made before the operand `block.CurrentHash` is
read: `bytes.Equal` compares the new digest with itself and `Validate` returns nil. -/
theorem C5_validate_accepts_tampered_block :
    bytesEqual tamperedBlock.CurrentHash (some (CaculateHash refEnv tamperedBlock).2) = false ∧
      Validate refEnv tamperedBlock = none := by
  decide

/-! ## Body recovery -/

/-- The local branch of `Recover`: when `Body` equals the bytes of the local body,
`Recover` returns nil at once, without taking any digest. -/
theorem Recover_local (env : Env) (b : Block) (blockBody : BlockBody)
    (hbody : b.BlockBody = some blockBody)
    (heq : bytesEqual b.Body (some (env.bodyBytes blockBody)) = true) :
    Recover env b = .returned b none := by
  simp [Recover, hbody, heq]

/-- C6 (no unverified body is accepted) on `unverifiedBlock`, whose `Body` holds the
bytes of the local body instead of their digest. The first test of `Recover` compares
`block.Body` with `block.BlockBody.Bytes()`, not with `Sha3_256` of them as the second
test does; the two are equal, `Recover` returns nil, and the digest of the body's bytes
is not `Body`. -/
theorem C6_recover_accepts_unverified_body :
    Recover refEnv unverifiedBlock = .returned unverifiedBlock none ∧
      bytesEqual
        (some (refEnv.Sha3_256 (refEnv.bodyBytes { Height := 3, content := [7] })))
        unverifiedBlock.Body = false := by
  decide

/-- C7 (the fetched body is re-verified). Let `Recover` take the fetch path: the local
body is there, its bytes differ from `Body`, and the round has a leader
`Peers[CurrentIndex]`. If the leader's `GetDBValue` fails, `Recover` returns that error;
if the bytes it returns do not deserialize, `Recover` returns the error of
`json.Unmarshal`; if they deserialize into a body whose digest differs from `Body`,
`Recover` returns the error "Block body is wrong". -/
theorem C7_fetched_body_reverified (env : Env) (b : Block) (blockBody : BlockBody)
    (round : Round) (peer : Peer)
    (hbody : b.BlockBody = some blockBody)
    (hlocal : bytesEqual b.Body (some (env.bodyBytes blockBody)) = false)
    (hround : b.Round = some round)
    (hpeer : round.leader = some peer) :
    (∀ err, env.GetDBValue peer b.Body = .error err →
        Recover env b = .returned b (some err)) ∧
      (∀ bodyData err, env.GetDBValue peer b.Body = .ok bodyData →
        (env.unmarshalBody bodyData blockBody).2 = some err →
        Recover env b =
          .returned { b with BlockBody := some (env.unmarshalBody bodyData blockBody).1 }
            (some err)) ∧
      (∀ bodyData, env.GetDBValue peer b.Body = .ok bodyData →
        (env.unmarshalBody bodyData blockBody).2 = none →
        bytesEqual
          (some (env.Sha3_256 (env.bodyBytes (env.unmarshalBody bodyData blockBody).1)))
          b.Body = false →
        Recover env b =
          .returned { b with BlockBody := some (env.unmarshalBody bodyData blockBody).1 }
            (some (Err.bodyIsWrong b.Body
              (env.Sha3_256 (env.bodyBytes (env.unmarshalBody bodyData blockBody).1))))) := by
  refine ⟨?_, ?_, ?_⟩
  · intro err hget
    simp [Recover, hbody, hlocal, hround, hpeer, hget]
  · intro bodyData err hget hun
    simp [Recover, hbody, hlocal, hround, hpeer, hget, hun]
  · intro bodyData hget hun hdig
    simp [Recover, hbody, hlocal, hround, hpeer, hget, hun, hdig]

/-- C7 on `fetchingBlock`: the leader, peer 2, answers with a body of its own, whose
digest is not the claimed `0909`. -/
theorem C7_fetched_body_reverified_witness :
    Recover refEnv fetchingBlock =
      .returned { fetchingBlock with BlockBody := some { Height := 2, content := [] } }
        (some (Err.bodyIsWrong (some [9, 9]) [2, 0, 2])) :=
  (C7_fetched_body_reverified refEnv fetchingBlock { Height := 0, content := [] }
    { Peers := [⟨2⟩], CurrentIndex := 0 } ⟨2⟩ rfl (by decide) rfl (by decide)).2.2
    [0, 2] rfl rfl (by decide)

/-! ## Construction and linkage -/

/-- C8 (block construction and chain linkage). For every predecessor `last`, the block
`b` made by `NewBlock(last)` has `Height = last.Height + 1` (an `int64` sum, which is the
exact sum unless `last.Height` is the largest `int64`), `PreviousHash = last.CurrentHash`,
`Fee = last.Fee`, `TotalFee = 0`, `Nonce = 0`, nil `CurrentHash` and `Body`,
`Round = last.Round.NextRound(last.CurrentHash)`, the state and token trees of `last`,
and new transaction and event trees without entries. -/
theorem C8_new_block (env : Env) (second nanosecond : Int) (last : Block) :
    (NewBlock env second nanosecond last).Height = wrap64 (last.Height + 1) ∧
      (isInt64 last.Height → last.Height ≠ 2 ^ 63 - 1 →
        (NewBlock env second nanosecond last).Height = last.Height + 1) ∧
      (NewBlock env second nanosecond last).PreviousHash = last.CurrentHash ∧
      (NewBlock env second nanosecond last).Fee = last.Fee ∧
      (NewBlock env second nanosecond last).TotalFee = 0 ∧
      (NewBlock env second nanosecond last).Nonce = 0 ∧
      (NewBlock env second nanosecond last).CurrentHash = none ∧
      (NewBlock env second nanosecond last).Body = none ∧
      (NewBlock env second nanosecond last).Round =
        env.NextRound last.Round last.CurrentHash ∧
      (NewBlock env second nanosecond last).StatTree = last.StatTree ∧
      (NewBlock env second nanosecond last).TokenTree = last.TokenTree ∧
      (NewBlock env second nanosecond last).TxTree = some (NewMTP env) ∧
      (NewBlock env second nanosecond last).EventTree = some (NewMTP env) ∧
      (NewMTP env).entries = [] := by
  refine ⟨rfl, ?_, rfl, rfl, rfl, rfl, rfl, rfl, rfl, rfl, rfl, rfl, rfl, rfl⟩
  intro hrange hmax
  show wrap64 (last.Height + 1) = last.Height + 1
  apply wrap64_of_isInt64
  unfold isInt64 at hrange ⊢
  constructor <;> omega

/-- C8 on `tipBlock`, at height 4 with hash `02`: the next block is at height 5 and
names `02` as the hash of its predecessor. -/
theorem C8_new_block_witness :
    (NewBlock refEnv 0 0 tipBlock).Height = 5 ∧
      (NewBlock refEnv 0 0 tipBlock).PreviousHash = some [2] :=
  ⟨(C8_new_block refEnv 0 0 tipBlock).2.1 (by decide) (by decide),
    (C8_new_block refEnv 0 0 tipBlock).2.2.1⟩

/-- The body of `ValidateNextBlock` returns true whatever its arguments. -/
theorem ValidateNextBlock_true (b next : Block) : ValidateNextBlock b next = true := rfl

/-- C9 (successor admissibility) on `tipBlock`, at height 4 with hash `02`, and
`strayBlock`, at height 9 with previous hash `01`: neither the height nor the hash
links, and `ValidateNextBlock` returns true. -/
theorem C9_stray_successor_accepted :
    strayBlock.Height ≠ tipBlock.Height + 1 ∧
      bytesEqual strayBlock.PreviousHash tipBlock.CurrentHash = false ∧
      ValidateNextBlock tipBlock strayBlock = true := by
  decide

/-! ## Determinism of the hash -/

/-- The digest is a function of the serialized fields after the refresh: two blocks that
agree on them have the same digest. -/
theorem CaculateHash_congr (env : Env) (b1 b2 : Block)
    (h : (UpdateMPTPlusRoot b1).header = (UpdateMPTPlusRoot b2).header) :
    (CaculateHash env b1).2 = (CaculateHash env b2).2 := by
  simp only [CaculateHash, Block.Bytes, h]

/-- Two refresh steps commute: each writes its own root field. -/
theorem refreshOne_comm (b : Block) (k1 k2 : RootKind) :
    refreshOne k2 (refreshOne k1 b) = refreshOne k1 (refreshOne k2 b) := by
  obtain ⟨_, _, _, _, _, _, _, _, _, _, st, _, tt, _, et, _, kt, _⟩ := b
  cases k1 <;> cases k2 <;> cases st <;> cases tt <;> cases et <;> cases kt <;> rfl

/-- The four refresh steps can be taken in any order: every arrangement of them gives
the block that `UpdateMPTPlusRoot` gives. -/
theorem refreshIn_perm (order : List RootKind)
    (h : order.Perm [RootKind.stat, RootKind.tx, RootKind.event, RootKind.token])
    (b : Block) : refreshIn order b = UpdateMPTPlusRoot b := by
  have hc : RightCommutative (fun (b : Block) (k : RootKind) => refreshOne k b) :=
    ⟨fun b k1 k2 => refreshOne_comm b k1 k2⟩
  unfold refreshIn
  rw [@List.Perm.foldl_eq _ _ _ _ _ hc h b]
  rfl

/-- The digest does not depend on the order in which the roots were refreshed. -/
theorem hash_order_independent (env : Env) (order : List RootKind)
    (h : order.Perm [RootKind.stat, RootKind.tx, RootKind.event, RootKind.token])
    (b : Block) :
    env.Sha3_256 (env.marshalBlock (refreshIn order b).header) = (CaculateHash env b).2 := by
  rw [refreshIn_perm order h b]
  rfl

/-- C10 (hash determinism) on `selfTransferBlock`: two calls of `CaculateHash` in
succession, with nothing done to the block in between, return two different digests.
The first call stores its digest in `CurrentHash`, which is part of the encoding that
the second call digests. -/
theorem C10_second_hash_differs :
    (CaculateHash refEnv selfTransferBlock).2 ≠
      (CaculateHash refEnv (CaculateHash refEnv selfTransferBlock).1).2 := by
  decide

/-! ## The conditions of solvency are needed -/

/-- A negative amount is accepted and takes the receiver below zero, even with
`fee ≥ block.Fee ≥ 0`: nothing in `NewTransaction` tests the sign of `tx.Amount`. -/
theorem overdraw_by_negative_amount :
    balanceOf refEnv
      (NewTransaction refEnv (ledgerBlock 0 [⟨[10], [], 0⟩, ⟨[11], [], 0⟩])
        { From := "0a", To := "0b", Amount := -5, tag := 0 } 5).block [11] = some (-5) := by
  decide

/-- A receiver at the largest `int64` wraps around to the smallest on receiving 1. -/
theorem overdraw_by_receiver_overflow :
    balanceOf refEnv
      (NewTransaction refEnv (ledgerBlock 0 [⟨[10], [], 1⟩, ⟨[11], [], 2 ^ 63 - 1⟩])
        { From := "0a", To := "0b", Amount := 1, tag := 0 } 0).block [11] =
      some (-(2 ^ 63)) := by
  decide

/-- When `tx.Amount + fee` overflows, the check compares the balance with a negative
number and accepts: a sender holding 0 ends at the smallest `int64`. -/
theorem overdraw_by_sum_overflow :
    balanceOf refEnv
      (NewTransaction refEnv (ledgerBlock 1 [⟨[10], [], 0⟩, ⟨[11], [], 0⟩])
        { From := "0a", To := "0b", Amount := 2 ^ 63 - 1, tag := 0 } 1).block [10] =
      some (-(2 ^ 63)) := by
  decide

/-! ## The transaction log -/

/-- What the tail of `NewTransaction` leaves in the transaction tree. -/
theorem recordResult_TxTree (env : Env) (b : Block) (tx : Transaction) (r : TxResult)
    {txTree : MTP} (h : b.TxTree = some txTree) :
    (recordResult env b tx r).block.TxTree =
      some (txTree.MustInsert env (env.hexDecode (env.TransactionId tx))
        (env.txResultToBytes r)) := by
  unfold recordResult
  simp [h, Outcome.block]

/-- With readable sender and receiver, `NewTransaction` ends in its tail `recordResult`,
on a block with the transaction tree of before, and with the result it returns. -/
theorem NewTransaction_tail (env : Env) (b : Block) (tx : Transaction) (fee : Int)
    {account reciever : Account}
    (hfrom : GetAccount env b (env.hexDecode tx.From) = some (.ok account))
    (hto : GetAccount env b (env.hexDecode tx.To) = some (.ok reciever)) :
    ∃ b1 r, NewTransaction env b tx fee = recordResult env b1 tx r ∧
      b1.TxTree = b.TxTree ∧
      r = NewTransactionResult tx fee
        (!decide (account.GetAmount < wrap64 (tx.Amount + fee)))
        (if account.GetAmount < wrap64 (tx.Amount + fee) then "no enough amount" else "") := by
  by_cases hlt : account.GetAmount < wrap64 (tx.Amount + fee)
  · refine ⟨b, _, NewTransaction_reject env b tx fee hfrom hlt, rfl, ?_⟩
    simp [hlt]
  · cases hst : b.StatTree with
    | none => simp [GetAccount, hst] at hfrom
    | some statTree =>
      refine ⟨_, _, NewTransaction_accept env b tx fee hst hfrom hto hlt, rfl, ?_⟩
      simp [hlt]

/-- C11 (every outcome is logged). On a block with a transaction tree, for a
transaction whose sender and receiver are readable, `NewTransaction` returns a result
`r`, accepted or rejected, and afterwards the transaction tree holds, at the key decoded
from `tx.TransactionId()`, the bytes `r.ToBytes()`. -/
theorem C11_outcome_logged (env : Env) (b : Block) (tx : Transaction) (fee : Int)
    (account reciever : Account) (txTree : MTP)
    (htx : b.TxTree = some txTree)
    (hfrom : GetAccount env b (env.hexDecode tx.From) = some (.ok account))
    (hto : GetAccount env b (env.hexDecode tx.To) = some (.ok reciever)) :
    ∃ b2 r, NewTransaction env b tx fee = .returned b2 r ∧
      r.success = !decide (account.GetAmount < wrap64 (tx.Amount + fee)) ∧
      treeGet b2.TxTree (env.hexDecode (env.TransactionId tx)) =
        some (.ok (env.txResultToBytes r)) := by
  obtain ⟨b1, r, hrun, htree, hr⟩ := NewTransaction_tail env b tx fee hfrom hto
  have htx1 : b1.TxTree = some txTree := htree.trans htx
  refine ⟨(recordResult env b1 tx r).block, r,
    hrun.trans (recordResult_returns env b1 tx r htx1), ?_, ?_⟩
  · rw [hr]; rfl
  · rw [recordResult_TxTree env b1 tx r htx1]
    simp [treeGet, GetValue_MustInsert_self]

/-- C11 on a rejected transfer: the sender holds 5 and is asked for 5 plus a fee of 1;
the log holds the bytes of the rejection under the identifier `0a0b`. -/
theorem C11_outcome_logged_witness :
    ∃ b2 r, NewTransaction refEnv (ledgerBlock 1 [⟨[10], [], 5⟩, ⟨[11], [], 0⟩])
        { From := "0a", To := "0b", Amount := 5, tag := 0 } 1 = .returned b2 r ∧
      r.success = !decide ((5 : Int) < wrap64 (5 + 1)) ∧
      treeGet b2.TxTree [10, 11] = some (.ok (refEnv.txResultToBytes r)) :=
  C11_outcome_logged refEnv (ledgerBlock 1 [⟨[10], [], 5⟩, ⟨[11], [], 0⟩])
    { From := "0a", To := "0b", Amount := 5, tag := 0 } 1
    ⟨[10], [], 5⟩ ⟨[11], [], 0⟩ (NewMTP refEnv) rfl rfl rfl

/-! ## Accounts -/

/-- After `MustInsert` the key is in the tree. -/
theorem ContainsKey_MustInsert_self (env : Env) (t : MTP) (k v : ByteSlice) :
    (t.MustInsert env k v).ContainsKey k = true := by
  simp [MTP.ContainsKey, MTP.MustInsert, lookup_cons_self]

/-- Go `CreateAccount` on an address that is in the state tree: nothing happens. -/
theorem CreateAccount_existing (env : Env) (b : Block) (address pubKey : ByteSlice) {t : MTP}
    (hst : b.StatTree = some t) (hc : t.ContainsKey address = true) :
    CreateAccount env b address pubKey = .returned b () := by
  simp [CreateAccount, ExistAddress, hst, hc]

/-- Go `CreateAccount` on an address that is not in the state tree: the encoding of a
new account is written there and the roots are refreshed. -/
theorem CreateAccount_absent (env : Env) (b : Block) (address pubKey : ByteSlice) {t : MTP}
    (hst : b.StatTree = some t) (hc : t.ContainsKey address = false) :
    CreateAccount env b address pubKey =
      .returned
        (UpdateMPTPlusRoot
          { b with
            StatTree :=
              some (t.MustInsert env address (env.marshalAccount (NewAccount address pubKey))) })
        () := by
  simp [CreateAccount, ExistAddress, newAccount, hst, hc]

/-- C12 (idempotent account creation). For every block, address and public keys,
`CreateAccount(address, pk2)` after `CreateAccount(address, pk1)` leaves the block, and
so the state tree, exactly as the first call left it. `CreateAccount` on an address that
is in the state tree returns the block unchanged. On an address that is not, the first
call writes the encoding of `NewAccount(address, pk1)`, whose balance is 0 (and which
reads back with balance 0 when the encoding is read back as written). -/
theorem C12_create_account_idempotent (env : Env) (b : Block) (address pk1 pk2 : ByteSlice) :
    (CreateAccount env (CreateAccount env b address pk1).block address pk2).block =
        (CreateAccount env b address pk1).block ∧
      (∀ t, b.StatTree = some t → t.ContainsKey address = true →
        CreateAccount env b address pk1 = .returned b ()) ∧
      (∀ t, b.StatTree = some t → t.ContainsKey address = false →
        ∃ b1, CreateAccount env b address pk1 = .returned b1 () ∧
          treeGet b1.StatTree address =
            some (.ok (env.marshalAccount (NewAccount address pk1))) ∧
          (NewAccount address pk1).GetAmount = 0 ∧
          CreateAccount env b1 address pk2 = .returned b1 () ∧
          (env.unmarshalAccount (env.marshalAccount (NewAccount address pk1)) =
              some (NewAccount address pk1) →
            balanceOf env b1 address = some 0)) := by
  have habsent : ∀ t, b.StatTree = some t → t.ContainsKey address = false →
      ∃ b1, CreateAccount env b address pk1 = .returned b1 () ∧
        treeGet b1.StatTree address =
          some (.ok (env.marshalAccount (NewAccount address pk1))) ∧
        (NewAccount address pk1).GetAmount = 0 ∧
        CreateAccount env b1 address pk2 = .returned b1 () ∧
        (env.unmarshalAccount (env.marshalAccount (NewAccount address pk1)) =
            some (NewAccount address pk1) →
          balanceOf env b1 address = some 0) := by
    intro t hst hc
    refine ⟨_, CreateAccount_absent env b address pk1 hst hc, ?_, rfl, ?_, ?_⟩
    · simp [treeGet, GetValue_MustInsert_self]
    · exact CreateAccount_existing env _ address pk2 (UpdateMPTPlusRoot_StatTree _)
        (ContainsKey_MustInsert_self env t address _)
    · intro hdec
      unfold balanceOf
      rw [GetAccount_MustInsert_self env _ t address _ _ (UpdateMPTPlusRoot_StatTree _) hdec]
      rfl
  refine ⟨?_, fun t hst hc => CreateAccount_existing env b address pk1 hst hc, habsent⟩
  cases hst : b.StatTree with
  | none => simp [CreateAccount, ExistAddress, hst, Outcome.block]
  | some t =>
    cases hc : t.ContainsKey address with
    | true =>
      rw [CreateAccount_existing env b address pk1 hst hc]
      simp only [Outcome.block]
      rw [CreateAccount_existing env b address pk2 hst hc]
    | false =>
      obtain ⟨b1, h1, _, _, h2, _⟩ := habsent t hst hc
      rw [h1]
      simp only [Outcome.block]
      rw [h2]

/-- C12 on a ledger without the address `0c`: the account created holds 0, and a second
creation with another key changes nothing. -/
theorem C12_create_account_idempotent_witness :
    ∃ b1, CreateAccount refEnv witnessLedger [12] [1] = .returned b1 () ∧
      treeGet b1.StatTree [12] = some (.ok (refEnv.marshalAccount (NewAccount [12] [1]))) ∧
      (NewAccount [12] [1]).GetAmount = 0 ∧
      CreateAccount refEnv b1 [12] [2] = .returned b1 () ∧
      (refEnv.unmarshalAccount (refEnv.marshalAccount (NewAccount [12] [1])) =
          some (NewAccount [12] [1]) →
        balanceOf refEnv b1 [12] = some 0) :=
  (C12_create_account_idempotent refEnv witnessLedger [12] [1] [2]).2.2
    { Root := none,
      entries := [([10], refMarshalAccount ⟨[10], [], 50⟩), ([11], refMarshalAccount ⟨[11], [], 0⟩)] }
    rfl (by decide)

/-- C13 (`InsertAccount` never overwrites). On a block with a state tree `t`,
`InsertAccount(account)` returns, and it returns true exactly when `account.Address()`
was not in `t`. When it was not, the state tree afterwards holds the encoding of the
account at that address and what it held before at every other key; when it was, the
block is unchanged. -/
theorem C13_insert_never_overwrites (env : Env) (b : Block) (account : Account) (t : MTP)
    (hst : b.StatTree = some t) :
    ∃ b2, InsertAccount env b account = .returned b2 (!t.ContainsKey account.Address) ∧
      (t.ContainsKey account.Address = false →
        treeGet b2.StatTree account.Address = some (.ok (env.marshalAccount account)) ∧
          ∀ k, k ≠ account.Address → treeGet b2.StatTree k = treeGet b.StatTree k) ∧
      (t.ContainsKey account.Address = true → b2 = b) := by
  cases hc : t.ContainsKey account.Address with
  | true =>
    refine ⟨b, ?_, ?_, fun _ => rfl⟩
    · simp [InsertAccount, ExistAddress, hst, hc]
    · intro h; cases h
  | false =>
    refine ⟨UpdateMPTPlusRoot
      { b with
        StatTree := some (t.MustInsert env account.Address (env.marshalAccount account)) },
      ?_, ?_, ?_⟩
    · simp [InsertAccount, ExistAddress, hst, hc]
    · intro _
      refine ⟨?_, ?_⟩
      · simp [treeGet, GetValue_MustInsert_self]
      · intro k hk
        simp [treeGet, hst, GetValue_MustInsert_of_ne env t _ hk]
    · intro h; cases h

/-- C13 on a ledger that holds `0a` with balance 50: inserting `0a` with balance 9
returns false and leaves the block as it is. -/
theorem C13_insert_never_overwrites_witness :
    ∃ b2, InsertAccount refEnv witnessLedger ⟨[10], [], 9⟩ = .returned b2 false ∧
      b2 = witnessLedger := by
  obtain ⟨b2, h1, _, h3⟩ := C13_insert_never_overwrites refEnv witnessLedger ⟨[10], [], 9⟩
    { Root := none,
      entries := [([10], refMarshalAccount ⟨[10], [], 50⟩), ([11], refMarshalAccount ⟨[11], [], 0⟩)] }
    rfl
  exact ⟨b2, h1, h3 (by decide)⟩

/-! ## Freshness of the roots -/

/-- After `UpdateMPTPlusRoot` every root with a tree handle is the root of its tree. -/
theorem rootsFresh_UpdateMPTPlusRoot (b : Block) : rootsFresh (UpdateMPTPlusRoot b) := by
  obtain ⟨_, _, _, _, _, _, _, _, _, _, st, _, tt, _, et, _, kt, _⟩ := b
  cases st <;> cases tt <;> cases et <;> cases kt <;>
    exact ⟨by first | exact rfl | exact True.intro, by first | exact rfl | exact True.intro,
      by first | exact rfl | exact True.intro, by first | exact rfl | exact True.intro⟩

/-- When the tail of `NewTransaction` returns, the roots are fresh. -/
theorem recordResult_fresh (env : Env) (b1 : Block) (tx : Transaction) (r1 : TxResult)
    {b2 : Block} {r : TxResult} (h : recordResult env b1 tx r1 = .returned b2 r) :
    rootsFresh b2 := by
  unfold recordResult at h
  cases htx : b1.TxTree with
  | none => simp [htx] at h
  | some txTree =>
    simp only [htx, Outcome.returned.injEq] at h
    rw [← h.1]
    exact rootsFresh_UpdateMPTPlusRoot _

/-- When `NewTransaction` returns, the roots are fresh. -/
theorem NewTransaction_fresh (env : Env) (b : Block) (tx : Transaction) (fee : Int)
    {b2 : Block} {r : TxResult} (h : NewTransaction env b tx fee = .returned b2 r) :
    rootsFresh b2 := by
  cases h1 : GetAccount env b (env.hexDecode tx.From) with
  | none => simp [NewTransaction, h1] at h
  | some r1 =>
    cases h2 : GetAccount env b (env.hexDecode tx.To) with
    | none => simp [NewTransaction, h1, h2] at h
    | some r2 =>
      cases r1 with
      | error e => simp [NewTransaction, h1, h2, Except.toOption] at h
      | ok account =>
        by_cases hlt : account.GetAmount < wrap64 (tx.Amount + fee)
        · rw [NewTransaction_reject env b tx fee h1 hlt] at h
          exact recordResult_fresh env _ tx _ h
        · cases r2 with
          | error e => simp [NewTransaction, h1, h2, Except.toOption, hlt] at h
          | ok reciever =>
            cases hst : b.StatTree with
            | none => simp [GetAccount, hst] at h1
            | some statTree =>
              rw [NewTransaction_accept env b tx fee hst h1 h2 hlt] at h
              exact recordResult_fresh env _ tx _ h

/-- C14 (roots are never stale after a mutating operation), as stated, fails on
`freshBlock`, a block returned by `NewBlock`: `NewBlock` leaves the four roots nil while
the state tree it takes over has the root `0104`, and `CreateAccount` on the address
`0a`, which is in that tree, returns without refreshing. After the call `StatRoot` is
nil and the root of `StatTree` is `0104`. -/
theorem C14_counterexample :
    CreateAccount refEnv freshBlock [10] [] = .returned freshBlock () ∧
      freshBlock.StatRoot = none ∧
      freshBlock.StatTree.map (fun t => t.Root) = some (some [1, 4]) ∧
      ¬ rootsFresh freshBlock := by
  decide

/-- C14, amended. For every block: when `NewTransaction` returns, when `InsertAccount`
returns true, and when `CreateAccount` returns on an address that was not in the state
tree, each header root whose tree handle is present equals that tree's root. When
`InsertAccount` returns false, and when `CreateAccount` returns on an address that was
in the state tree, the block is returned as it was, its roots included. -/
theorem C14_roots_fresh_after_write (env : Env) (b : Block) :
    (∀ tx fee b2 r, NewTransaction env b tx fee = .returned b2 r → rootsFresh b2) ∧
      (∀ account b2 ok, InsertAccount env b account = .returned b2 ok →
        (ok = true → rootsFresh b2) ∧ (ok = false → b2 = b)) ∧
      (∀ address pubKey b2, CreateAccount env b address pubKey = .returned b2 () →
        (ExistAddress b address = some false → rootsFresh b2) ∧
          (ExistAddress b address = some true → b2 = b)) := by
  refine ⟨fun tx fee b2 r h => NewTransaction_fresh env b tx fee h, ?_, ?_⟩
  · intro account b2 ok h
    cases hst : b.StatTree with
    | none => simp [InsertAccount, ExistAddress, hst] at h
    | some t =>
      cases hc : t.ContainsKey account.Address with
      | true =>
        simp only [InsertAccount, ExistAddress, hst, hc, Outcome.returned.injEq] at h
        refine ⟨fun hok => ?_, fun _ => h.1.symm⟩
        rw [← h.2] at hok; cases hok
      | false =>
        simp only [InsertAccount, ExistAddress, hst, hc, Outcome.returned.injEq] at h
        refine ⟨fun _ => ?_, fun hok => ?_⟩
        · rw [← h.1]; exact rootsFresh_UpdateMPTPlusRoot _
        · rw [← h.2] at hok; cases hok
  · intro address pubKey b2 h
    cases hst : b.StatTree with
    | none => simp [CreateAccount, ExistAddress, hst] at h
    | some t =>
      cases hc : t.ContainsKey address with
      | true =>
        rw [CreateAccount_existing env b address pubKey hst hc] at h
        simp only [Outcome.returned.injEq, and_true] at h
        refine ⟨fun hex => ?_, fun _ => h.symm⟩
        simp [ExistAddress, hst, hc] at hex
      | false =>
        rw [CreateAccount_absent env b address pubKey hst hc] at h
        simp only [Outcome.returned.injEq, and_true] at h
        refine ⟨fun _ => ?_, fun hex => ?_⟩
        · rw [← h]; exact rootsFresh_UpdateMPTPlusRoot _
        · simp [ExistAddress, hst, hc] at hex

/-- C14, amended, on `freshBlock`: creating the address `0c`, which is not in the state
tree, returns a block whose roots are fresh. -/
theorem C14_roots_fresh_after_write_witness :
    ExistAddress freshBlock [12] = some false ∧
      rootsFresh (CreateAccount refEnv freshBlock [12] []).block :=
  ⟨by decide,
    ((C14_roots_fresh_after_write refEnv freshBlock).2.2 [12] []
      (CreateAccount refEnv freshBlock [12] []).block (by decide)).1 (by decide)⟩

/-! ## Reading a block back from its bytes -/

/-- Had the decoding succeeded, `FromBytes2Block` would still leave `TokenTree` as
decoded, that is nil: only three of the four trees are reopened. -/
theorem reattach_TokenTree (env : Env) (b : Block) :
    (reattach env b).TokenTree = b.TokenTree ∧
      (reattach env b).StatTree = some (env.MTP_Tree b.StatRoot) ∧
      (reattach env b).TxTree = some (env.MTP_Tree b.TxRoot) ∧
      (reattach env b).EventTree = some (env.MTP_Tree b.EventRoot) :=
  ⟨rfl, rfl, rfl, rfl⟩

/-- C15 (serialization round trip): for every block `b`, `FromBytes2Block(b.Bytes())`
returns an error and no block. `json.Unmarshal` is handed the struct `block` instead of
a pointer to it and refuses every such target. -/
theorem C15_from_bytes_always_fails (env : Env) (b : Block) :
    FromBytes2Block env (Block.Bytes env b).2 = .error Err.unmarshal := by
  rfl

/-! ## Missing accounts -/

/-- Go `GetAccount` at an address that is not in the state tree. -/
theorem GetAccount_absent (env : Env) (b : Block) (address : ByteSlice) {t : MTP}
    (hst : b.StatTree = some t) (hc : t.ContainsKey address = false) :
    GetAccount env b address = some (.error Err.notFound) := by
  have hl : t.entries.lookup address = none := by
    simpa [MTP.ContainsKey] using hc
  simp [GetAccount, hst, MTP.GetValue, hl]

/-- On a block with a state tree `GetAccount` does not fault. -/
theorem GetAccount_some (env : Env) (b : Block) (address : ByteSlice) {t : MTP}
    (hst : b.StatTree = some t) : ∃ r, GetAccount env b address = some r := by
  unfold GetAccount
  rw [hst]
  simp only []
  split
  · exact ⟨_, rfl⟩
  · split
    · exact ⟨_, rfl⟩
    · exact ⟨_, rfl⟩

/-- C16 (missing accounts are surfaced, not executed), as stated, fails. In
`loneSenderBlock` only `0a` has an entry, holding 5. The transfer of 10 to `0b` finds no
receiver (`GetAccount` returns the error), yet `NewTransaction` drops that error, fails
the balance check and returns the ordinary rejection. -/
theorem C16_counterexample :
    GetAccount refEnv loneSenderBlock (refEnv.hexDecode orphanTx.To) =
        some (.error Err.notFound) ∧
      NewTransaction refEnv loneSenderBlock orphanTx 0 =
        .returned (NewTransaction refEnv loneSenderBlock orphanTx 0).block
          (NewTransactionResult orphanTx 0 false "no enough amount") :=
  ⟨rfl, by decide⟩

/-- C16, amended. On a block with a state tree, `GetAccount` returns the error "not
found" and no account for every address that is not in the tree. `NewTransaction` drops
the errors of its two lookups: when the sender is not in the tree it panics at the
balance check and leaves the block as it was; when the sender is readable and the
receiver is not in the tree it leaves the state tree as it was, and when moreover the
balance check fails it ends as the ordinary rejection, `TotalFee` unchanged. -/
theorem C16_missing_accounts (env : Env) (b : Block) (t : MTP) (hst : b.StatTree = some t) :
    (∀ address, t.ContainsKey address = false →
        GetAccount env b address = some (.error Err.notFound)) ∧
      (∀ tx fee, t.ContainsKey (env.hexDecode tx.From) = false →
        NewTransaction env b tx fee = .panicked b) ∧
      (∀ tx fee account,
        GetAccount env b (env.hexDecode tx.From) = some (.ok account) →
        t.ContainsKey (env.hexDecode tx.To) = false →
        (NewTransaction env b tx fee).block.StatTree = b.StatTree ∧
          (account.GetAmount < wrap64 (tx.Amount + fee) →
            NewTransaction env b tx fee =
                recordResult env b tx (NewTransactionResult tx fee false "no enough amount") ∧
              (NewTransaction env b tx fee).block.TotalFee = b.TotalFee)) := by
  refine ⟨fun address hc => GetAccount_absent env b address hst hc, ?_, ?_⟩
  · intro tx fee hc
    have h1 := GetAccount_absent env b (env.hexDecode tx.From) hst hc
    obtain ⟨r2, h2⟩ := GetAccount_some env b (env.hexDecode tx.To) hst
    simp [NewTransaction, h1, h2, Except.toOption]
  · intro tx fee account hfrom hc
    have h2 := GetAccount_absent env b (env.hexDecode tx.To) hst hc
    refine ⟨?_, ?_⟩
    · rcases NewTransaction_cases env b tx fee with hsame | ⟨_, _, _, _, _, hto, _⟩
      · exact hsame
      · rw [h2] at hto; cases hto
    · intro hlt
      have hrej := NewTransaction_reject env b tx fee hfrom hlt
      refine ⟨hrej, ?_⟩
      rw [hrej]
      exact (recordResult_block env b tx _).2.1

/-- C16, amended, on `loneSenderBlock`: a transfer from `0b`, which has no entry,
panics and leaves the block as it was. -/
theorem C16_missing_accounts_witness :
    NewTransaction refEnv loneSenderBlock
        { From := "0b", To := "0a", Amount := 1, tag := 0 } 0 = .panicked loneSenderBlock :=
  (C16_missing_accounts refEnv loneSenderBlock
    { Root := none, entries := [([10], refMarshalAccount ⟨[10], [], 5⟩)] } rfl).2.1
    { From := "0b", To := "0a", Amount := 1, tag := 0 } 0 (by decide)

/-! ## A transfer to oneself -/

/-- C18 (self-transfer outcome). Let accounts be read back as written. On a block with
a transaction tree, for a transaction whose sender and receiver are the same address,
readable with balance `B`, and whose balance check passes (`B ≥ tx.Amount + fee`, the
`int64` sum), `NewTransaction` returns a success, and afterwards the entry of that
address holds the balance `B + tx.Amount` (an `int64` sum, the exact sum when it is
within `int64`) and `TotalFee` has grown by `block.Fee`. -/
theorem C18_self_transfer (env : Env) (b : Block) (tx : Transaction) (fee : Int)
    (account : Account) (statTree txTree : MTP)
    (hrt : ∀ a, env.unmarshalAccount (env.accountToBytes a) = some a)
    (hst : b.StatTree = some statTree) (htx : b.TxTree = some txTree)
    (hfrom : GetAccount env b (env.hexDecode tx.From) = some (.ok account))
    (heq : env.hexDecode tx.From = env.hexDecode tx.To)
    (hge : ¬ account.GetAmount < wrap64 (tx.Amount + fee)) :
    ∃ b2 r, NewTransaction env b tx fee = .returned b2 r ∧ r.success = true ∧
      balanceOf env b2 (env.hexDecode tx.From) =
        some (wrap64 (account.GetAmount + tx.Amount)) ∧
      (isInt64 (account.GetAmount + tx.Amount) →
        balanceOf env b2 (env.hexDecode tx.From) = some (account.GetAmount + tx.Amount)) ∧
      b2.TotalFee = wrap64 (b.TotalFee + b.Fee) := by
  have hto : GetAccount env b (env.hexDecode tx.To) = some (.ok account) := heq ▸ hfrom
  have hacc := NewTransaction_accept env b tx fee hst hfrom hto hge
  have hself := transfer_to_self env b tx fee hrt hst hfrom hge heq
  have hret := recordResult_returns env
    { b with
      TotalFee := wrap64 (b.TotalFee + b.Fee)
      StatTree := some
        ((statTree.MustInsert env (env.hexDecode tx.From)
            (env.accountToBytes (account.ReduceAmount (wrap64 (tx.Amount + b.Fee))))).MustInsert
          env (env.hexDecode tx.To) (env.accountToBytes (account.AddAmount tx.Amount))) }
    tx (NewTransactionResult tx fee true "") htx
  rw [← hacc] at hret
  refine ⟨_, _, hret, rfl, hself.1, ?_, hself.2⟩
  intro hin
  rw [hself.1]
  exact congrArg some (wrap64_of_isInt64 hin)

/-- C18 on `selfTransferBlock`: `0a` holds 1000, sends itself 100 with fee 2, and holds
1100 afterwards; `TotalFee` is 2. -/
theorem C18_self_transfer_witness :
    ∃ b2 r, NewTransaction refEnv selfTransferBlock selfTransferTx 2 = .returned b2 r ∧
      r.success = true ∧
      balanceOf refEnv b2 [10] = some (wrap64 (1000 + 100)) ∧
      (isInt64 (1000 + 100) → balanceOf refEnv b2 [10] = some (1000 + 100)) ∧
      b2.TotalFee = wrap64 (0 + 2) :=
  C18_self_transfer refEnv selfTransferBlock selfTransferTx 2 ⟨[10], [], 1000⟩
    { Root := none, entries := [([10], refMarshalAccount ⟨[10], [], 1000⟩)] } (NewMTP refEnv)
    refUnmarshal_refMarshal rfl rfl rfl rfl (by decide)

/-! ## Solvency of a single transfer -/

/-- With a transaction tree and readable sender and receiver, `NewTransaction` returns. -/
theorem NewTransaction_returns (env : Env) (b : Block) (tx : Transaction) (fee : Int)
    {account reciever : Account} {txTree : MTP}
    (htx : b.TxTree = some txTree)
    (hfrom : GetAccount env b (env.hexDecode tx.From) = some (.ok account))
    (hto : GetAccount env b (env.hexDecode tx.To) = some (.ok reciever)) :
    ∃ r, NewTransaction env b tx fee = .returned (NewTransaction env b tx fee).block r := by
  obtain ⟨b1, r, hrun, htree, _⟩ := NewTransaction_tail env b tx fee hfrom hto
  have hret := recordResult_returns env b1 tx r (htree.trans htx)
  rw [← hrun] at hret
  exact ⟨r, hret⟩

/-- C19 (sufficient condition for solvency), as stated, fails. In `brimBlock` the sender
`0a` holds 1, the receiver `0b` holds the largest `int64`, and the block fee is 0. The
transfer of 1 with fee 0 meets every condition of the claim (sender's balance and amount
at least 0, `fee ≥ block.Fee ≥ 0`, `Amount + fee = 1`), is accepted, and the receiver's
balance wraps around to the smallest `int64`: it is negative, and the sum of the two
balances and `TotalFee` has changed. -/
theorem C19_counterexample :
    balanceOf refEnv brimBlock [10] = some 1 ∧
      balanceOf refEnv brimBlock [11] = some (2 ^ 63 - 1) ∧
      brimBlock.TotalFee = 0 ∧ brimBlock.Fee = 0 ∧
      balanceOf refEnv (NewTransaction refEnv brimBlock brimTx 0).block [10] = some 0 ∧
      balanceOf refEnv (NewTransaction refEnv brimBlock brimTx 0).block [11] =
        some (-(2 ^ 63)) ∧
      (NewTransaction refEnv brimBlock brimTx 0).block.TotalFee = 0 := by
  decide

/-- C19, amended. Let accounts be read back as written. On a block with a transaction
tree, for a transaction between two different readable addresses, if the sender's and
the receiver's balances are at least 0 (and `int64` values), `tx.Amount ≥ 0`,
`fee ≥ block.Fee ≥ 0`, and none of `tx.Amount + fee`, the receiver's balance plus
`tx.Amount`, and `TotalFee + block.Fee` overflows `int64`, then `NewTransaction` returns,
accepted or rejected, both balances are at least 0 afterwards, and the sum of the two
balances and `TotalFee` is the same as before. -/
theorem C19_solvent_transfer (env : Env) (b : Block) (tx : Transaction) (fee : Int)
    (account reciever : Account) (statTree txTree : MTP)
    (hrt : ∀ a, env.unmarshalAccount (env.accountToBytes a) = some a)
    (hst : b.StatTree = some statTree) (htx : b.TxTree = some txTree)
    (hfrom : GetAccount env b (env.hexDecode tx.From) = some (.ok account))
    (hto : GetAccount env b (env.hexDecode tx.To) = some (.ok reciever))
    (hne : env.hexDecode tx.From ≠ env.hexDecode tx.To)
    (hs0 : 0 ≤ account.GetAmount) (hs1 : account.GetAmount < 2 ^ 63)
    (hr0 : 0 ≤ reciever.GetAmount) (hr1 : reciever.GetAmount + tx.Amount < 2 ^ 63)
    (hamt : 0 ≤ tx.Amount) (hfee0 : 0 ≤ b.Fee) (hfee : b.Fee ≤ fee)
    (hsum : tx.Amount + fee < 2 ^ 63) (htot : isInt64 (b.TotalFee + b.Fee)) :
    ∃ b2 r s q, NewTransaction env b tx fee = .returned b2 r ∧
      balanceOf env b2 (env.hexDecode tx.From) = some s ∧
      balanceOf env b2 (env.hexDecode tx.To) = some q ∧
      0 ≤ s ∧ 0 ≤ q ∧
      s + q + b2.TotalFee = account.GetAmount + reciever.GetAmount + b.TotalFee := by
  obtain ⟨r, hret⟩ := NewTransaction_returns env b tx fee htx hfrom hto
  simp only [Account.GetAmount] at hs0 hs1 hr0 hr1
  have hw1 : wrap64 (tx.Amount + fee) = tx.Amount + fee :=
    wrap64_of_isInt64 (by unfold isInt64; constructor <;> omega)
  have hw2 : wrap64 (tx.Amount + b.Fee) = tx.Amount + b.Fee :=
    wrap64_of_isInt64 (by unfold isInt64; constructor <;> omega)
  by_cases hlt : account.GetAmount < wrap64 (tx.Amount + fee)
  · have hrej := NewTransaction_reject env b tx fee hfrom hlt
    have hblk := recordResult_block env b tx
      (NewTransactionResult tx fee false "no enough amount")
    rw [← hrej] at hblk
    refine ⟨_, r, account.amount, reciever.amount, hret, ?_, ?_, hs0, hr0, ?_⟩
    · unfold balanceOf; rw [GetAccount_congr env hblk.1, hfrom]; rfl
    · unfold balanceOf; rw [GetAccount_congr env hblk.1, hto]; rfl
    · rw [hblk.2.1]; rfl
  · obtain ⟨h1, h2, h3⟩ := transfer_between_distinct env b tx fee hrt hst hfrom hto hlt hne
    have hge : tx.Amount + fee ≤ account.amount := by
      have := hlt
      simp only [Account.GetAmount, hw1, not_lt] at this
      exact this
    have hws : wrap64 (account.amount - wrap64 (tx.Amount + b.Fee)) =
        account.amount - (tx.Amount + b.Fee) := by
      rw [hw2]
      exact wrap64_of_isInt64 (by unfold isInt64; constructor <;> omega)
    have hwr : wrap64 (reciever.amount + tx.Amount) = reciever.amount + tx.Amount :=
      wrap64_of_isInt64 (by unfold isInt64; constructor <;> omega)
    rw [hws] at h1
    rw [hwr] at h2
    rw [wrap64_of_isInt64 htot] at h3
    refine ⟨_, r, _, _, hret, h1, h2, by omega, by omega, ?_⟩
    rw [h3]
    simp only [Account.GetAmount]
    omega

/-- C19, amended, on `witnessLedger`: `0a` holds 50 and sends 40 to `0b` with fee 3 at
block fee 2. -/
theorem C19_solvent_transfer_witness :
    ∃ b2 r s q, NewTransaction refEnv witnessLedger
        { From := "0a", To := "0b", Amount := 40, tag := 0 } 3 = .returned b2 r ∧
      balanceOf refEnv b2 [10] = some s ∧ balanceOf refEnv b2 [11] = some q ∧
      0 ≤ s ∧ 0 ≤ q ∧ s + q + b2.TotalFee = 50 + 0 + 0 :=
  C19_solvent_transfer refEnv witnessLedger
    { From := "0a", To := "0b", Amount := 40, tag := 0 } 3 ⟨[10], [], 50⟩ ⟨[11], [], 0⟩
    { Root := none,
      entries := [([10], refMarshalAccount ⟨[10], [], 50⟩), ([11], refMarshalAccount ⟨[11], [], 0⟩)] }
    (NewMTP refEnv) refUnmarshal_refMarshal rfl rfl rfl rfl (by decide) (by decide)
    (by decide) (by decide) (by decide) (by decide) (by decide) (by decide) (by decide)
    (by decide)

/-! ## The frame of a transfer -/

/-- Refreshing the roots leaves the other header fields as they are. -/
theorem UpdateMPTPlusRoot_frame (b : Block) :
    (UpdateMPTPlusRoot b).Height = b.Height ∧ (UpdateMPTPlusRoot b).Nonce = b.Nonce ∧
      (UpdateMPTPlusRoot b).Fee = b.Fee ∧
      (UpdateMPTPlusRoot b).PreviousHash = b.PreviousHash ∧
      (UpdateMPTPlusRoot b).CurrentHash = b.CurrentHash ∧
      (UpdateMPTPlusRoot b).Body = b.Body ∧ (UpdateMPTPlusRoot b).Round = b.Round := by
  obtain ⟨_, _, _, _, _, _, _, _, _, _, st, _, tt, _, et, _, kt, _⟩ := b
  cases st <;> cases tt <;> cases et <;> cases kt <;> exact ⟨rfl, rfl, rfl, rfl, rfl, rfl, rfl⟩

/-- The frame of the tail of `NewTransaction`: only the key of the transaction changes
in the transaction tree. -/
theorem recordResult_frame (env : Env) (b1 : Block) (tx : Transaction) (r : TxResult)
    {txTree : MTP} (htx : b1.TxTree = some txTree) :
    (∀ k, k ≠ env.hexDecode (env.TransactionId tx) →
        treeGet (recordResult env b1 tx r).block.TxTree k = treeGet b1.TxTree k) ∧
      (recordResult env b1 tx r).block.Height = b1.Height ∧
      (recordResult env b1 tx r).block.Nonce = b1.Nonce ∧
      (recordResult env b1 tx r).block.Fee = b1.Fee ∧
      (recordResult env b1 tx r).block.PreviousHash = b1.PreviousHash ∧
      (recordResult env b1 tx r).block.CurrentHash = b1.CurrentHash ∧
      (recordResult env b1 tx r).block.Body = b1.Body ∧
      (recordResult env b1 tx r).block.Round = b1.Round := by
  refine ⟨?_, ?_⟩
  · intro k hk
    rw [recordResult_TxTree env b1 tx r htx, htx]
    simp [treeGet, GetValue_MustInsert_of_ne env txTree _ hk]
  · unfold recordResult
    simp only [htx, Outcome.block]
    exact UpdateMPTPlusRoot_frame _

/-- C20 (transfer frame). On a block with a transaction tree, for a transaction whose
sender and receiver are readable, `NewTransaction` returns and leaves every state-tree
entry at a key other than the sender's and the receiver's address as it was, every
transaction-tree entry at a key other than the transaction's identifier as it was, and
`Height`, `Nonce`, `Fee`, `PreviousHash`, `CurrentHash`, `Body` and `Round` unchanged. -/
theorem C20_transfer_frame (env : Env) (b : Block) (tx : Transaction) (fee : Int)
    (account reciever : Account) (txTree : MTP)
    (htx : b.TxTree = some txTree)
    (hfrom : GetAccount env b (env.hexDecode tx.From) = some (.ok account))
    (hto : GetAccount env b (env.hexDecode tx.To) = some (.ok reciever)) :
    ∃ b2 r, NewTransaction env b tx fee = .returned b2 r ∧
      (∀ k, k ≠ env.hexDecode tx.From → k ≠ env.hexDecode tx.To →
        treeGet b2.StatTree k = treeGet b.StatTree k) ∧
      (∀ k, k ≠ env.hexDecode (env.TransactionId tx) →
        treeGet b2.TxTree k = treeGet b.TxTree k) ∧
      b2.Height = b.Height ∧ b2.Nonce = b.Nonce ∧ b2.Fee = b.Fee ∧
      b2.PreviousHash = b.PreviousHash ∧ b2.CurrentHash = b.CurrentHash ∧
      b2.Body = b.Body ∧ b2.Round = b.Round := by
  obtain ⟨r, hret⟩ := NewTransaction_returns env b tx fee htx hfrom hto
  refine ⟨_, r, hret, ?_⟩
  by_cases hlt : account.GetAmount < wrap64 (tx.Amount + fee)
  · rw [NewTransaction_reject env b tx fee hfrom hlt]
    refine ⟨fun k _ _ => ?_, recordResult_frame env b tx _ htx⟩
    rw [(recordResult_block env b tx _).1]
  · cases hst : b.StatTree with
    | none => simp [GetAccount, hst] at hfrom
    | some statTree =>
      rw [NewTransaction_accept env b tx fee hst hfrom hto hlt]
      refine ⟨fun k hk1 hk2 => ?_, recordResult_frame env _ tx _ htx⟩
      rw [(recordResult_block env _ tx _).1]
      simp [treeGet, GetValue_MustInsert_of_ne env _ _ hk2,
        GetValue_MustInsert_of_ne env _ _ hk1]

/-- C20 on `witnessLedger`: after the transfer of 40 from `0a` to `0b`, height, nonce,
fee, hashes, body and round are those of before. -/
theorem C20_transfer_frame_witness :
    ∃ b2 r, NewTransaction refEnv witnessLedger
        { From := "0a", To := "0b", Amount := 40, tag := 0 } 3 = .returned b2 r ∧
      (∀ k, k ≠ [10] → k ≠ [11] → treeGet b2.StatTree k = treeGet witnessLedger.StatTree k) ∧
      (∀ k, k ≠ [10, 11] → treeGet b2.TxTree k = treeGet witnessLedger.TxTree k) ∧
      b2.Height = witnessLedger.Height ∧ b2.Nonce = witnessLedger.Nonce ∧
      b2.Fee = witnessLedger.Fee ∧ b2.PreviousHash = witnessLedger.PreviousHash ∧
      b2.CurrentHash = witnessLedger.CurrentHash ∧ b2.Body = witnessLedger.Body ∧
      b2.Round = witnessLedger.Round :=
  C20_transfer_frame refEnv witnessLedger
    { From := "0a", To := "0b", Amount := 40, tag := 0 } 3 ⟨[10], [], 50⟩ ⟨[11], [], 0⟩
    (NewMTP refEnv) rfl rfl rfl

/-! ## The registry of chains -/

/-- Both branches of the `switch` in `Init` do the same. -/
theorem registerChain_eq (menv : ManagerEnv) (m : BlockchainManager)
    (running : List DPOSConsensus) (c : BlockChain) :
    registerChain menv m running c =
      ({ Blockchains := (chainKey menv c, c) :: m.Blockchains,
         Consensuses := (chainKey menv c, NewDPoSConsensus c) :: m.Consensuses },
        running ++ [NewDPoSConsensus c]) := by
  unfold registerChain chainKey
  split <;> rfl

/-- On a slice without nil the loop of `Init` runs to its end. -/
theorem registerAll_completes (menv : ManagerEnv) (chains : List BlockChain) :
    ∀ (m : BlockchainManager) (running : List DPOSConsensus),
      ∃ r, registerAll menv m running (chains.map some) = .ok r := by
  induction chains with
  | nil => intro m running; exact ⟨_, rfl⟩
  | cons c rest ih =>
    intro m running
    simp only [List.map_cons, registerAll]
    exact ih _ _

/-- The loop of `Init` does not touch a key that none of the chains has. -/
theorem registerAll_other_key (menv : ManagerEnv) (k : String) (chains : List BlockChain) :
    ∀ (m : BlockchainManager) (running : List DPOSConsensus)
      (r : BlockchainManager × List DPOSConsensus),
      (∀ c ∈ chains, chainKey menv c ≠ k) →
      registerAll menv m running (chains.map some) = .ok r →
      r.1.Blockchains.lookup k = m.Blockchains.lookup k ∧
        r.1.Consensuses.lookup k = m.Consensuses.lookup k := by
  induction chains with
  | nil =>
    intro m running r _ h
    simp only [List.map_nil, registerAll, Except.ok.injEq] at h
    rw [← h]
    exact ⟨rfl, rfl⟩
  | cons c rest ih =>
    intro m running r hk h
    simp only [List.map_cons, registerAll] at h
    have hrest := ih _ _ r (fun d hd => hk d (List.mem_cons_of_mem _ hd)) h
    rw [registerChain_eq] at hrest
    have hne : (k == chainKey menv c) = false := by
      have := hk c (List.mem_cons_self _ _)
      simpa using fun h => this h.symm
    simpa [List.lookup, hne] using hrest

/-- After the loop of `Init` over chains with pairwise different keys, every chain is
bound to its key, and so is an engine made for it. -/
theorem registerAll_registers (menv : ManagerEnv) (chains : List BlockChain) :
    ∀ (m : BlockchainManager) (running : List DPOSConsensus)
      (r : BlockchainManager × List DPOSConsensus),
      (chains.map (chainKey menv)).Nodup →
      registerAll menv m running (chains.map some) = .ok r →
      ∀ c ∈ chains, r.1.Blockchains.lookup (chainKey menv c) = some c ∧
        r.1.Consensuses.lookup (chainKey menv c) = some (NewDPoSConsensus c) := by
  induction chains with
  | nil => intro m running r _ _ c hc; cases hc
  | cons d rest ih =>
    intro m running r hnd h c hc
    simp only [List.map_cons, List.nodup_cons] at hnd
    simp only [List.map_cons, registerAll] at h
    rcases List.mem_cons.1 hc with hcd | hcr
    · subst hcd
      have hother := registerAll_other_key menv (chainKey menv c) rest _ _ r
        (fun e he heq => hnd.1 (heq ▸ List.mem_map_of_mem _ he)) h
      rw [registerChain_eq] at hother
      simpa [List.lookup] using hother
    · exact ih _ _ r hnd.2 h c hcr

/-- C17 (registry population with consensus fallback), as stated, fails on a stored
list in which two chains share their `ChainId`: `twinRegistry` decodes to two chains with
the identifier `01` and the fees 5 and 6. `Init` returns, and the key `01` of
`Blockchains` holds the second chain: the first chain of the list is not registered. -/
theorem C17_counterexample :
    refUnmarshalChains twinRegistry = .ok [some (refChain 1 0 5), some (refChain 1 0 6)] ∧
      (∃ s m, Init (refManagerEnv (.ok twinRegistry)) = .returned s ∧
        s.blockchainManager = some m ∧
        m.Blockchains.lookup (chainKey (refManagerEnv (.ok twinRegistry)) (refChain 1 0 5)) =
          some (refChain 1 0 6)) ∧
      refChain 1 0 5 ≠ refChain 1 0 6 :=
  ⟨rfl, ⟨_, _, rfl, rfl, by decide⟩, by decide⟩

/-- C17, amended. If the read of the registry fails, or what was read does not decode,
`Init` returns with empty maps and the backbone chain set. If it decodes into a list of
chains (no nil among them) whose `ChainId`s have pairwise different hexadecimal
encodings, `Init` returns, the backbone chain is set, and every chain of the list is
bound in `Blockchains` to the hexadecimal encoding of its `ChainId`, and in `Consensuses`
an engine made by `NewDPoSConsensus` for that chain is bound to the same key, whatever
the consensus kind of the chain. -/
theorem C17_registry_population (menv : ManagerEnv) :
    (∀ e, menv.dbGet BlockchainManagerDBKey = .error e →
        Init menv = .returned (backboneOnly menv)) ∧
      (∀ value e, menv.dbGet BlockchainManagerDBKey = .ok value →
        menv.unmarshalChains value = .error e →
        Init menv = .returned (backboneOnly menv)) ∧
      (backboneOnly menv).blockchainManager = some { Blockchains := [], Consensuses := [] } ∧
      (backboneOnly menv).MainBlockChain = some menv.backbone ∧
      (∀ (value : ByteSlice) (chains : List BlockChain),
        menv.dbGet BlockchainManagerDBKey = .ok value →
        menv.unmarshalChains value = .ok (chains.map some) →
        (chains.map (chainKey menv)).Nodup →
        ∃ s m, Init menv = .returned s ∧ s.blockchainManager = some m ∧
          s.MainBlockChain = some menv.backbone ∧
          ∀ c ∈ chains, m.Blockchains.lookup (chainKey menv c) = some c ∧
            m.Consensuses.lookup (chainKey menv c) = some (NewDPoSConsensus c)) := by
  refine ⟨?_, ?_, rfl, rfl, ?_⟩
  · intro e h
    simp [Init, h]
  · intro value e h1 h2
    simp [Init, h1, h2]
  · intro value chains h1 h2 hnd
    obtain ⟨r, hr⟩ := registerAll_completes menv chains
      { Blockchains := [], Consensuses := [] } (backboneOnly menv).running
    refine ⟨{ backboneOnly menv with blockchainManager := some r.1, running := r.2 }, r.1,
      ?_, rfl, rfl, registerAll_registers menv chains _ _ r hnd hr⟩
    simp [Init, h1, h2, hr]

/-- C17, amended, on `pairRegistry`: the chains `01` (DPoS) and `02` (of the unknown
kind 7) are both registered, each with a DPoS engine. -/
theorem C17_registry_population_witness :
    ∃ s m, Init (refManagerEnv (.ok pairRegistry)) = .returned s ∧
      s.blockchainManager = some m ∧
      s.MainBlockChain = some (refManagerEnv (.ok pairRegistry)).backbone ∧
      ∀ c ∈ [refChain 1 0 5, refChain 2 7 6],
        m.Blockchains.lookup (chainKey (refManagerEnv (.ok pairRegistry)) c) = some c ∧
          m.Consensuses.lookup (chainKey (refManagerEnv (.ok pairRegistry)) c) =
            some (NewDPoSConsensus c) :=
  (C17_registry_population (refManagerEnv (.ok pairRegistry))).2.2.2.2 pairRegistry
    [refChain 1 0 5, refChain 2 7 6] rfl rfl (by decide)

/-! ## What the amended conditions exclude -/

/-- An accepted transfer to an address without entry panics at
`recieverAccount.AddAmount`, after `TotalFee` has been raised by the fee of the block:
`TotalFee` is 1 in the block left behind, and no balance was written. -/
theorem missing_receiver_keeps_fee :
    NewTransaction refEnv loneSenderBlock { From := "0a", To := "0b", Amount := 1, tag := 0 } 1 =
      .panicked { loneSenderBlock with TotalFee := 1 } := by
  decide

/-- A receiver whose balance is negative before a transfer can be negative after it. -/
theorem negative_receiver_stays_negative :
    balanceOf refEnv
      (NewTransaction refEnv (ledgerBlock 0 [⟨[10], [], 1⟩, ⟨[11], [], -5⟩])
        { From := "0a", To := "0b", Amount := 1, tag := 0 } 0).block [11] = some (-4) := by
  decide

/-- At the largest `int64`, `TotalFee` wraps around when the fee of the block is added. -/
theorem total_fee_overflow_wraps :
    (NewTransaction refEnv
      { ledgerBlock 1 [⟨[10], [], 10⟩, ⟨[11], [], 0⟩] with TotalFee := 2 ^ 63 - 1 }
      { From := "0a", To := "0b", Amount := 1, tag := 0 } 1).block.TotalFee = -(2 ^ 63) := by
  decide

end EKT
